import Mathlib

/-!
Verification of the frame-batch analysis pipeline of
`backend/app/services/gpt_service.py` (class `GPTService`).

Python strings are modelled as `List Char`; Python dicts holding one video
frame are modelled by the structure `Frame`; the external LLM endpoint
together with `json.loads` on its raw reply is an oracle parameter.
Wall-clock durations (`processing_time_ms` divisions of elapsed time) are
modelled as `0`: no claim depends on timing values.
-/

/-! ### Characters and whitespace sets -/

/-- Backtick, written via its code point to keep the development plain ASCII. -/
def btick : Char := Char.ofNat 96

/-- Opening curly brace. -/
def lbrace : Char := Char.ofNat 123

/-- Closing curly brace. -/
def rbrace : Char := Char.ofNat 125

/-- Single quote character. -/
def squote : Char := Char.ofNat 39

/-- Whitespace recognised by Python's `str.strip()` / the regex class `\s`
(ASCII subset, which covers every string this service manipulates). -/
def isWs (c : Char) : Bool :=
  c = ' ' || c = '\t' || c = '\n' || c = '\r' || c = Char.ofNat 11 || c = Char.ofNat 12

/-- Whitespace accepted around JSON tokens by `json.loads`. -/
def isJsonWs (c : Char) : Bool :=
  c = ' ' || c = '\t' || c = '\n' || c = '\r'

/-- Python `str.strip()` with no arguments. -/
def pyStrip (s : List Char) : List Char :=
  ((s.dropWhile isWs).reverse.dropWhile isWs).reverse

/-- Python `str.lstrip("\n\r")` as used on the template remainder. -/
def lstripNlCr (s : List Char) : List Char :=
  s.dropWhile (fun c => c = '\n' || c = '\r')

/-- Python `str.lstrip("\n\r\t ")` as used inside `_repair_json`. -/
def lstripWs4 (s : List Char) : List Char :=
  s.dropWhile (fun c => c = '\n' || c = '\r' || c = '\t' || c = ' ')

/-- Python `str.rstrip("\n\r\t ")` as used inside `_repair_json`. -/
def rstripWs4 (s : List Char) : List Char :=
  (s.reverse.dropWhile (fun c => c = '\n' || c = '\r' || c = '\t' || c = ' ')).reverse

/-- ASCII `str.lower` on one character. -/
def toLowerAscii (c : Char) : Char :=
  if 'A' ≤ c && c ≤ 'Z' then Char.ofNat (c.toNat + 32) else c

/-! ### Substring search (Python `in`, `str.find`, `str.rfind`) -/

/-- Python `needle in hay`. -/
def containsSub (needle : List Char) : List Char → Bool
  | [] => needle.isEmpty
  | c :: rest => needle.isPrefixOf (c :: rest) || containsSub needle rest

/-- Python `hay.find(needle)`: index of the leftmost occurrence (`none` for `-1`). -/
def strFindIdx (needle : List Char) : List Char → Option Nat
  | [] => if needle.isEmpty then some 0 else none
  | c :: rest =>
    if needle.isPrefixOf (c :: rest) then some 0
    else (strFindIdx needle rest).map (· + 1)

/-- Python `hay.find(ch)` for a single character. -/
def charFindIdx (ch : Char) (s : List Char) : Option Nat :=
  strFindIdx [ch] s

/-- Python `hay.rfind(ch)` for a single character: index of the rightmost
occurrence. -/
def charRFindIdx (ch : Char) (s : List Char) : Option Nat :=
  (charFindIdx ch s.reverse).map (fun i => s.length - 1 - i)

/-! ### `GPTService._strip_markdown_code_blocks` -/

/-- One pass of `re.sub(lit + "\s*\n?", "", text)` for a non-empty literal
`lit`: scan left to right, and at each match remove the literal together with
the maximal following whitespace run (the greedy `\s*` consumes every
whitespace character, leaving `\n?` to match the empty string).  Recursion is
by fuel so that the definition is structural and evaluates inside the kernel;
`fuel = length of the text` always suffices because every step consumes at
least one character. -/
def subFenceAux (lit : List Char) : Nat → List Char → List Char
  | 0, s => s
  | _ + 1, [] => []
  | fuel + 1, c :: rest =>
    if lit.isPrefixOf (c :: rest) then
      subFenceAux lit fuel (((c :: rest).drop lit.length).dropWhile isWs)
    else c :: subFenceAux lit fuel rest

/-- `re.sub(lit + "\s*\n?", "", text)` with adequate fuel. -/
def subFence (lit : List Char) (s : List Char) : List Char :=
  subFenceAux lit s.length s

/-- The literal part of the first regex, ` ```json `. -/
def jsonFenceLit : List Char := btick :: btick :: btick :: "json".toList

/-- The literal part of the second regex, ` ``` `. -/
def fenceLit : List Char := btick :: btick :: btick :: []

/-- `GPTService._strip_markdown_code_blocks` (gpt_service.py lines 162-174):
remove markdown code fences, then strip, then drop a residual leading or
trailing ` ``` `, then strip again. -/
def strip_markdown_code_blocks (text : List Char) : List Char :=
  let t1 := subFence jsonFenceLit text
  let t2 := subFence fenceLit t1
  let t3 := pyStrip t2
  let t4 := if fenceLit.isPrefixOf t3 then pyStrip (t3.drop 3) else t3
  let t5 :=
    if fenceLit.reverse.isPrefixOf t4.reverse then pyStrip (t4.take (t4.length - 3)) else t4
  pyStrip t5

/-! ### `GPTService._repair_json` -/

/-- Number of occurrences of a character (Python `str.count` for one char). -/
def charCount (ch : Char) (s : List Char) : Nat :=
  s.countP (fun c => c = ch)

/-- `GPTService._repair_json` (gpt_service.py lines 176-225), a best-effort
brace-balancing repair pass translated branch for branch. -/
def repair_json (s0 : List Char) : List Char :=
  let s1 := pyStrip s0
  if s1.isEmpty then [lbrace, rbrace]
  else
    let s2 := lstripWs4 s1
    let s3 :=
      if s2.head? = some lbrace then s2
      else
        match charFindIdx lbrace s2 with
        | some start => s2.drop start
        | none =>
          if containsSub ['"'] s2 || containsSub ("timestamp".toList) (s2.map toLowerAscii)
              || containsSub ("description".toList) (s2.map toLowerAscii) then
            let w := lbrace :: s2
            if charCount rbrace w < charCount lbrace w then w ++ [rbrace] else w
          else s2
    let s4 :=
      if s3.getLast? = some rbrace then s3
      else
        match charRFindIdx rbrace s3 with
        | some e => s3.take (e + 1)
        | none =>
          if s3.head? = some lbrace && charCount rbrace s3 < charCount lbrace s3 then
            s3 ++ [rbrace]
          else s3
    let s5 := rstripWs4 s4
    let s6 := if s5.head? = some lbrace then s5 else lbrace :: s5
    let s7 := if s6.getLast? = some rbrace then s6 else s6 ++ [rbrace]
    pyStrip s7

/-! ### A JSON value model and a decoder standing in for `json.loads`

The service delegates decoding to Python's `json` module, which is outside
this repository.  `Json` models decoded values (dict / list / str / number /
bool / None); `jsonParse` is an executable decoder for the JSON fragment the
service actually exchanges (objects, arrays, strings with the common
escapes, integers, `true`/`false`/`null`), requiring — like `json.loads` —
that the whole input be consumed. -/

inductive Json where
  | null : Json
  | bool (b : Bool) : Json
  | num (n : Int) : Json
  | str (s : List Char) : Json
  | arr (elems : List Json) : Json
  | obj (members : List (List Char × Json)) : Json

/-- Lookup in a decoded JSON object (Python `dict` keys are unique, so the
first match is the value). -/
def jLookup (kvs : List (List Char × Json)) (k : List Char) : Option Json :=
  match kvs with
  | [] => none
  | (k', v) :: rest => if k' = k then some v else jLookup rest k

/-- Python truthiness of a decoded JSON value. -/
def jTruthy : Json → Bool
  | .null => false
  | .bool b => b
  | .num n => n != 0
  | .str s => !s.isEmpty
  | .arr xs => !xs.isEmpty
  | .obj kvs => !kvs.isEmpty

/-- The Python type name of a decoded JSON value, as it appears in error
messages built from `type(x).__name__`. -/
def pyTypeName : Json → List Char
  | .null => "NoneType".toList
  | .bool _ => "bool".toList
  | .num _ => "int".toList
  | .str _ => "str".toList
  | .arr _ => "list".toList
  | .obj _ => "dict".toList

/-- Body of a JSON string literal after the opening quote: returns the
decoded characters and the remainder after the closing quote. -/
def parseStringBody : List Char → Option (List Char × List Char)
  | [] => none
  | '"' :: rest => some ([], rest)
  | '\\' :: e :: rest =>
    (match e with
      | '"' => some '"'
      | '\\' => some '\\'
      | '/' => some '/'
      | 'n' => some '\n'
      | 't' => some '\t'
      | 'r' => some '\r'
      | 'b' => some (Char.ofNat 8)
      | 'f' => some (Char.ofNat 12)
      | _ => none).bind
      fun c => (parseStringBody rest).map fun (p : List Char × List Char) => (c :: p.1, p.2)
  | '\\' :: [] => none
  | c :: rest => (parseStringBody rest).map fun (p : List Char × List Char) => (c :: p.1, p.2)

/-- Digit run folded left to right (most significant first). -/
def parseNatAux : Nat → List Char → Nat × List Char
  | acc, c :: rest =>
    if c.isDigit then parseNatAux (acc * 10 + (c.toNat - 48)) rest else (acc, c :: rest)
  | acc, [] => (acc, [])

/-- JSON integer (optional minus sign, digit run). -/
def parseInt (s : List Char) : Option (Int × List Char) :=
  match s with
  | [] => none
  | c :: rest =>
    if c = '-' then
      match rest with
      | [] => none
      | d :: rest2 =>
        if d.isDigit then
          let p := parseNatAux 0 (d :: rest2)
          some (-(p.1 : Int), p.2)
        else none
    else if c.isDigit then
      let p := parseNatAux 0 (c :: rest)
      some ((p.1 : Int), p.2)
    else none

mutual

/-- One JSON value, fuel-based so that the kernel can evaluate it. -/
def parseValue : Nat → List Char → Option (Json × List Char)
  | 0, _ => none
  | fuel + 1, s =>
    match s.dropWhile isJsonWs with
    | [] => none
    | c :: rest =>
      if c = '"' then (parseStringBody rest).map fun p => (.str p.1, p.2)
      else if c = '[' then
        (if (']' :: []).isPrefixOf (rest.dropWhile isJsonWs) then
          some (.arr [], (rest.dropWhile isJsonWs).drop 1)
        else (parseElems fuel rest).map fun p => (.arr p.1, p.2))
      else if c = lbrace then
        (if (rbrace :: []).isPrefixOf (rest.dropWhile isJsonWs) then
          some (.obj [], (rest.dropWhile isJsonWs).drop 1)
        else (parseMembers fuel rest).map fun p => (.obj p.1, p.2))
      else if ("true".toList).isPrefixOf (c :: rest) then
        some (.bool true, (c :: rest).drop 4)
      else if ("false".toList).isPrefixOf (c :: rest) then
        some (.bool false, (c :: rest).drop 5)
      else if ("null".toList).isPrefixOf (c :: rest) then
        some (.null, (c :: rest).drop 4)
      else
        (parseInt (c :: rest)).map fun p => (.num p.1, p.2)

/-- Comma-separated array elements up to the closing bracket. -/
def parseElems : Nat → List Char → Option (List Json × List Char)
  | 0, _ => none
  | fuel + 1, s =>
    (parseValue fuel s).bind fun (v, rest) =>
      match rest.dropWhile isJsonWs with
      | [] => none
      | c :: r2 =>
        if c = ']' then some ([v], r2)
        else if c = ',' then (parseElems fuel r2).map fun p => (v :: p.1, p.2)
        else none

/-- Comma-separated `"key": value` members up to the closing brace. -/
def parseMembers : Nat → List Char → Option (List (List Char × Json) × List Char)
  | 0, _ => none
  | fuel + 1, s =>
    match s.dropWhile isJsonWs with
    | [] => none
    | c :: rest =>
      if c = '"' then
        (parseStringBody rest).bind fun (k, r1) =>
          match r1.dropWhile isJsonWs with
          | [] => none
          | c2 :: r2 =>
            if c2 = ':' then
              (parseValue fuel r2).bind fun (v, r3) =>
                match r3.dropWhile isJsonWs with
                | [] => none
                | c3 :: r4 =>
                  if c3 = ',' then
                    (parseMembers fuel r4).map fun p => ((k, v) :: p.1, p.2)
                  else if c3 = rbrace then some ([(k, v)], r4)
                  else none
            else none
      else none

end

/-- `json.loads`: decode one value and require the rest to be whitespace. -/
def jsonParse (s : List Char) : Option Json :=
  match parseValue (s.length + 1) s with
  | some (j, rest) => if (rest.dropWhile isJsonWs).isEmpty then some j else none
  | none => none

/-! ### `GPTService.analyze_frame` response interpretation (lines 505-644) -/

/-- Field extraction of the main parse path (gpt_service.py lines 557-576):
a falsy `description` becomes the placeholder string, a non-list `meta_tags`
becomes the empty list, everything else is kept as returned. -/
def extractMainFields (kvs : List (List Char × Json)) : Json × Json :=
  let d := (jLookup kvs ("description".toList)).getD (.str [])
  let d := if jTruthy d then d else .str ("No description provided".toList)
  let m := (jLookup kvs ("meta_tags".toList)).getD (.arr [])
  let m := match m with
    | .arr xs => Json.arr xs
    | _ => Json.arr []
  (d, m)

/-- Field extraction of the final repair attempt (gpt_service.py lines
623-627), which uses a different default for `description` and no
truthiness adjustment. -/
def extractFinalFields (kvs : List (List Char × Json)) : Json × Json :=
  let d := (jLookup kvs ("description".toList)).getD
    (.str ("Error: Could not parse GPT response".toList))
  let m := (jLookup kvs ("meta_tags".toList)).getD (.arr [])
  let m := match m with
    | .arr xs => Json.arr xs
    | _ => Json.arr []
  (d, m)

/-- ValueError message of gpt_service.py line 555. -/
def notDictMsg (j : Json) : List Char :=
  "JSON response is not a dictionary, got ".toList ++ pyTypeName j

/-- The brace-slicing step of the repair path (gpt_service.py lines
535-543): take the substring from the first opening brace to the last
closing brace when both exist in the right order, else the whole text. -/
def repairSlice (c2 : List Char) : List Char :=
  match charFindIdx lbrace c2, charRFindIdx rbrace c2 with
  | some s, some e => if s < e then (c2.drop s).take (e + 1 - s) else c2
  | some _, none => c2
  | none, _ => c2

/-- The final repair attempt of the `json.JSONDecodeError` handler
(gpt_service.py lines 617-634), run on the original unstripped text. -/
def finalAttempt (content : List Char) : Except (List Char) (Json × Json) :=
  match jsonParse (repair_json content) with
  | some (.obj kvs) => .ok (extractFinalFields kvs)
  | _ =>
    .error ("Failed to parse GPT JSON response. Content preview: ".toList
      ++ content.take 200)

/-- The response-interpretation core of `GPTService.analyze_frame`
(gpt_service.py lines 512-644): direct decode of the stripped text; on
failure strip markdown fences, slice from the first opening to the last
closing brace, repair and decode; on a second failure repair the original
text and decode once more.  Returns the final `(description, meta_tags)`
values, or the message of the exception `analyze_frame` would catch. -/
def analyzeFrameParse (content : List Char) : Except (List Char) (Json × Json) :=
  if (pyStrip content).isEmpty then .error ("Empty response from GPT API".toList)
  else
    match jsonParse (pyStrip content) with
    | some (.obj kvs) => .ok (extractMainFields kvs)
    | some j => .error (notDictMsg j)
    | none =>
      match jsonParse (repair_json (repairSlice
          (pyStrip (strip_markdown_code_blocks (pyStrip content))))) with
      | some (.obj kvs) => .ok (extractMainFields kvs)
      | some j => .error (notDictMsg j)
      | none => finalAttempt content

/-! ### `GPTService._build_full_prompt` (lines 121-155) -/

/-- The `ANALYSIS RULES` start sentinel exactly as it appears in the source
file (the three characters before the space are the code points U+00F0,
U+0178, U+201D stored in `gpt_service.py` line 126). -/
def startMarker : List Char :=
  "### ".toList ++ [Char.ofNat 240, Char.ofNat 376, Char.ofNat 8221]
    ++ " **ANALYSIS RULES**".toList

/-- The end separator `"\n---\n"` of the editable region. -/
def endSepLit : List Char := "\n---\n".toList

/-- The fallback end sentinel `"\n### "`. -/
def sectionLit : List Char := "\n### ".toList

/-- `GPTService._build_full_prompt`: splice `rules` between the start
sentinel and the end separator of `template`, returning the template
unchanged when the start sentinel is absent. -/
def build_full_prompt (template rules : List Char) : List Char :=
  match strFindIdx startMarker template with
  | none => template
  | some i =>
    let contentStart := i + startMarker.length
    let remaining := lstripNlCr (template.drop contentStart)
    let before := template.take contentStart
    match strFindIdx endSepLit remaining with
    | some e => before ++ "\n\n".toList ++ rules ++ remaining.drop e
    | none =>
      match strFindIdx sectionLit remaining with
      | some e => before ++ "\n\n".toList ++ rules ++ remaining.drop e
      | none => before ++ "\n\n".toList ++ rules ++ "\n".toList ++ remaining

/-! ### Frames, configuration, and the batch pipeline

A Python frame dict is modelled by `Frame`: `imagePath` is `some p` when
`frame.get("image_path") or frame.get("frame_path")` yields a truthy path,
`timestamp` is the value the sort key `x.get("timestamp", 0)` sees, and the
analysis fields are `none` until the pipeline writes them (`dict.update`
becomes a record update).  `Config` captures which backend resolves at call
time: `useCustomGpt` is `self.use_custom_gpt` after the runtime re-check,
`hasOpenAIClient` says whether `_get_openai_client` returns a client. -/

structure Frame where
  timestamp : Nat
  imagePath : Option (List Char) := none
  description : Option Json := none
  ocrText : Option Json := none
  metaTags : Option Json := none
  processingTimeMs : Option Nat := none
  error : Option (List Char) := none
  gptResponse : Option Json := none

structure Config where
  useCustomGpt : Bool
  hasOpenAIClient : Bool

/-- Outcome of one model call followed by `json.loads` on its reply — the
two external steps of `analyze_frame_batch`.  `raises` is any exception
thrown during the call (transport failure, the wrapped 413 oversize
rejection of `_call_custom_gpt`, or the timeout re-raise); `badJson` is a
`json.JSONDecodeError` from `json.loads`; `parsed` is a decoded reply. -/
inductive BatchOutcome where
  | raises (msg : List Char)
  | badJson (msg : List Char)
  | parsed (j : Json)

/-- The oracle: what the external endpoint plus `json.loads` does for a
given batch of frames. -/
def Oracle := List Frame → BatchOutcome

/-- The message of the exception `_call_custom_gpt` raises on HTTP 413
(gpt_service.py line 372). -/
def msg413 : List Char :=
  "Request payload too large (413). Batch size needs to be reduced.".toList

/-- The configuration-error message of gpt_service.py lines 722 and 1036. -/
def noKeyMsg : List Char := "OpenAI API key not configured".toList

/-- Python `repr` of a list of strings, as interpolated into the
`"Could not find frames array"` message. -/
def pyReprKeys (keys : List (List Char)) : List Char :=
  '[' :: (List.intercalate (", ".toList) (keys.map fun k => squote :: k ++ [squote])) ++ [']']

/-- First list-valued property of a decoded object (gpt_service.py lines
886-890). -/
def firstArrayValue : List (List Char × Json) → Option (List Json)
  | [] => none
  | (_, .arr xs) :: _ => some xs
  | _ :: rest => firstArrayValue rest

/-- Locating the per-frame results inside the decoded batch reply
(gpt_service.py lines 869-894): prefer the `frames` key, else a top-level
array, else a single-frame-shaped object, else the first array-valued
property; the error case is the ValueError the outer handler turns into a
whole-batch failure. -/
def extractBatchResults : Json → Except (List Char) (List Json)
  | .obj kvs =>
    (match jLookup kvs ("frames".toList) with
      | some (.arr xs) => .ok xs
      | some v => .ok (if jTruthy v then [v] else [])
      | none =>
        if (jLookup kvs ("timestamp".toList)).isSome
            || (jLookup kvs ("description".toList)).isSome then
          .ok [.obj kvs]
        else
          match firstArrayValue kvs with
          | some xs => .ok xs
          | none =>
            .error ("Could not find frames array in response. Keys: ".toList
              ++ pyReprKeys (kvs.map Prod.fst)))
  | .arr xs => .ok xs
  | j => .error ("Unexpected response format: <class ".toList
      ++ squote :: pyTypeName j ++ squote :: ">".toList)

/-- Message of the `AttributeError` Python raises when `result.get` is
called on a non-dict value (caught by the outer handler of
`analyze_frame_batch`). -/
def attrGetMsg (j : Json) : List Char :=
  squote :: pyTypeName j ++ squote :: " object has no attribute ".toList
    ++ squote :: "get".toList ++ [squote]

/-- Successful per-frame update of the mapping loop (gpt_service.py lines
901-909). -/
def applyResult (f : Frame) (kvs : List (List Char × Json)) : Frame :=
  { f with
    description := some ((jLookup kvs ("description".toList)).getD (.str []))
    ocrText := some ((jLookup kvs ("ocr_text".toList)).getD .null)
    metaTags := some ((jLookup kvs ("meta_tags".toList)).getD (.arr []))
    processingTimeMs := some 0
    gptResponse := some (.obj kvs) }

/-- Synthesized failure for a batch position beyond the returned array
(gpt_service.py lines 911-918). -/
def missingResultFill (f : Frame) : Frame :=
  { f with
    description := some (.str ("No analysis result".toList))
    ocrText := some .null
    metaTags := some (.arr [])
    processingTimeMs := some 0
    error := some ("Missing result in batch response".toList) }

/-- The positional mapping loop of `analyze_frame_batch` (lines 898-919):
result `i` is applied to frame `i`; missing positions are filled; a
non-dict result makes `result.get` raise, aborting to the outer handler. -/
def mapBatchResults : List Frame → List Json → Except (List Char) (List Frame)
  | [], _ => .ok []
  | f :: fs, [] => (mapBatchResults fs []).map (fun out => missingResultFill f :: out)
  | f :: fs, r :: rs =>
    match r with
    | .obj kvs => (mapBatchResults fs rs).map (fun out => applyResult f kvs :: out)
    | bad => .error (attrGetMsg bad)

/-- Whole-batch failure marking of the outer exception handler
(gpt_service.py lines 948-957). -/
def batchErrorMark (msg : List Char) (f : Frame) : Frame :=
  { f with
    description := some (.str ("Error in batch analysis: ".toList ++ msg))
    ocrText := some .null
    metaTags := some (.arr [])
    processingTimeMs := some 0
    error := some msg }

/-- Whole-batch failure marking of the `json.JSONDecodeError` handler
(gpt_service.py lines 932-941). -/
def parseErrorMark (msg : List Char) (f : Frame) : Frame :=
  { f with
    description := some (.str ("Error parsing batch response: ".toList ++ msg))
    ocrText := some .null
    metaTags := some (.arr [])
    processingTimeMs := some 0
    error := some msg }

/-- `GPTService.analyze_frame_batch` (gpt_service.py lines 700-957).  The
first component is the returned list, or — only for the configuration check
of line 722, which sits outside the all-catching `try` — the raised
exception's message.  The second component logs every model call actually
made (the batch handed to the endpoint). -/
def analyze_frame_batch (cfg : Config) (oracle : Oracle) (frames_batch : List Frame) :
    Except (List Char) (List Frame) × List (List Frame) :=
  if !cfg.useCustomGpt && !cfg.hasOpenAIClient then (.error noKeyMsg, [])
  else if frames_batch.isEmpty then (.ok [], [])
  else
    let images := frames_batch.filterMap Frame.imagePath
    if images.isEmpty then (.ok frames_batch, [])
    else
      match oracle frames_batch with
      | .raises msg => (.ok (frames_batch.map (batchErrorMark msg)), [frames_batch])
      | .badJson msg => (.ok (frames_batch.map (parseErrorMark msg)), [frames_batch])
      | .parsed j =>
        match extractBatchResults j with
        | .error msg => (.ok (frames_batch.map (batchErrorMark msg)), [frames_batch])
        | .ok results =>
          match mapBatchResults frames_batch results with
          | .ok out => (.ok out, [frames_batch])
          | .error msg => (.ok (frames_batch.map (batchErrorMark msg)), [frames_batch])

/-- The 413 test of `analyze_batch_with_semaphore` (gpt_service.py line
1101). -/
def is413Error (msg : List Char) : Bool :=
  containsSub ("413".toList) msg
    || containsSub ("Request Entity Too Large".toList) msg
    || containsSub ("payload too large".toList) (msg.map toLowerAscii)

/-- Per-frame error marking of the individual-frame fallback
(gpt_service.py lines 1122-1128). -/
def frameErrorMark (msg : List Char) (f : Frame) : Frame :=
  { f with
    description := some (.str ("Error analyzing frame: ".toList ++ msg))
    ocrText := some .null
    metaTags := some (.arr [])
    processingTimeMs := some 0
    error := some msg }

/-- Whole-batch error marking of the non-413 branch (gpt_service.py lines
1143-1151). -/
def semaphoreErrorMark (msg : List Char) (f : Frame) : Frame :=
  { f with
    description := some (.str ("Error analyzing batch: ".toList ++ msg))
    ocrText := some .null
    metaTags := some (.arr [])
    processingTimeMs := some 0
    error := some msg }

/-- The sequential one-frame-at-a-time fallback of the 413 branch
(gpt_service.py lines 1112-1130): each frame becomes its own size-1 batch;
a non-empty result list is appended, a raised exception marks that frame
alone. -/
def individualFallback (cfg : Config) (oracle : Oracle) :
    List Frame → List Frame × List (List Frame)
  | [] => ([], [])
  | f :: fs =>
    let r := analyze_frame_batch cfg oracle [f]
    let rest := individualFallback cfg oracle fs
    match r.1 with
    | .ok res => ((if res.isEmpty then [] else res) ++ rest.1, r.2 ++ rest.2)
    | .error msg => (frameErrorMark msg f :: rest.1, r.2 ++ rest.2)

/-- `analyze_batch_with_semaphore` (gpt_service.py lines 1080-1151) minus
the scheduling: call `analyze_frame_batch`; if it raises an oversize error,
fall back to individual frames; any other exception marks the whole
batch. -/
def analyze_batch_with_semaphore (cfg : Config) (oracle : Oracle) (batch : List Frame) :
    List Frame × List (List Frame) :=
  match analyze_frame_batch cfg oracle batch with
  | (.ok res, calls) => (res, calls)
  | (.error msg, calls) =>
    if is413Error msg then
      let fb := individualFallback cfg oracle batch
      (fb.1, calls ++ fb.2)
    else (batch.map (semaphoreErrorMark msg), calls)

/-- The batch-size clamp of gpt_service.py lines 1052-1056. -/
def effectiveBatchSize (cfg : Config) (batch_size : Nat) : Nat :=
  if cfg.useCustomGpt then min batch_size 2 else batch_size

/-- The partitioning loop `for i in range(0, len(frames), size)`
(gpt_service.py lines 1066-1069), by fuel so that it evaluates; `fuel =
length` suffices whenever `size ≥ 1`. -/
def chunkAux (size : Nat) : Nat → List Frame → List (List Frame)
  | _, [] => []
  | 0, _ :: _ => []
  | fuel + 1, x :: xs => (x :: xs).take size :: chunkAux size fuel ((x :: xs).drop size)

/-- Partition into contiguous batches of `size` frames. -/
def chunkList (size : Nat) (xs : List Frame) : List (List Frame) :=
  chunkAux size xs.length xs

/-- The sort key relation of `analyzed_frames.sort(key=lambda x:
x.get("timestamp", 0))`. -/
def tsLe (a b : Frame) : Prop := a.timestamp ≤ b.timestamp

instance : DecidableRel tsLe := fun a b => Nat.decLe a.timestamp b.timestamp

instance : IsTotal Frame tsLe := ⟨fun a b => Nat.le_total a.timestamp b.timestamp⟩

instance : IsTrans Frame tsLe := ⟨fun _ _ _ h h' => Nat.le_trans h h'⟩

/-- Python's stable ascending sort by timestamp (gpt_service.py line 1176);
a stable sort by a fixed key is unique, so insertion sort coincides with
CPython's timsort here. -/
def sortByTimestamp (l : List Frame) : List Frame :=
  l.insertionSort tsLe

/-- The merge step of `batch_analyze_frames` (lines 1157-1176): flatten the
gathered per-batch result lists, then sort by timestamp.  (`asyncio.gather`
yields results in submission order; its exception branch is unreachable
because `analyze_batch_with_semaphore` catches every exception.) -/
def mergeResults (rs : List (List Frame)) : List Frame :=
  sortByTimestamp rs.flatten

/-- `GPTService.batch_analyze_frames` (gpt_service.py lines 959-1184):
configuration check, empty-input check, batch-size clamp, partitioning,
concurrent dispatch (order-preserving `gather`), merge and sort.  The
second component logs every model call made. -/
def batch_analyze_frames (cfg : Config) (oracle : Oracle) (frames : List Frame)
    (batch_size : Nat) : List Frame × List (List Frame) :=
  if !cfg.useCustomGpt && !cfg.hasOpenAIClient then
    (frames.map (fun f =>
      { f with
        description := some (.str noKeyMsg)
        ocrText := some .null
        metaTags := some (.arr [])
        processingTimeMs := some 0
        error := some noKeyMsg }), [])
  else if frames.isEmpty then ([], [])
  else
    let eff := effectiveBatchSize cfg batch_size
    let batches := chunkList eff frames
    let perBatch := batches.map (analyze_batch_with_semaphore cfg oracle)
    (mergeResults (perBatch.map Prod.fst), (perBatch.map Prod.snd).flatten)

/-! ### Partitioning lemmas -/

theorem chunkAux_flatten (size : Nat) (hs : 1 ≤ size) :
    ∀ fuel xs, xs.length ≤ fuel → (chunkAux size fuel xs).flatten = xs := by
  intro fuel
  induction fuel with
  | zero =>
    intro xs hxs
    have : xs = [] := List.eq_nil_of_length_eq_zero (Nat.le_zero.mp hxs)
    subst this; rfl
  | succ fuel ih =>
    intro xs hxs
    cases xs with
    | nil => rfl
    | cons x xs =>
      have hdrop : ((x :: xs).drop size).length ≤ fuel := by
        rw [List.length_drop]
        simp only [List.length_cons] at hxs ⊢
        omega
      simp only [chunkAux, List.flatten_cons, ih _ hdrop, List.take_append_drop]

theorem chunkAux_length (size : Nat) (hs : 1 ≤ size) :
    ∀ fuel xs, xs.length ≤ fuel →
      (chunkAux size fuel xs).length = (xs.length + size - 1) / size := by
  intro fuel
  induction fuel with
  | zero =>
    intro xs hxs
    have : xs = [] := List.eq_nil_of_length_eq_zero (Nat.le_zero.mp hxs)
    subst this
    simp only [chunkAux, List.length_nil, Nat.zero_add]
    exact (Nat.div_eq_of_lt (by omega)).symm
  | succ fuel ih =>
    intro xs hxs
    cases xs with
    | nil =>
      simp only [chunkAux, List.length_nil, Nat.zero_add]
      exact (Nat.div_eq_of_lt (by omega)).symm
    | cons x xs =>
      have hdrop : ((x :: xs).drop size).length ≤ fuel := by
        rw [List.length_drop]
        simp only [List.length_cons] at hxs ⊢
        omega
      have hrec := ih _ hdrop
      rw [List.length_drop] at hrec
      simp only [chunkAux, List.length_cons, hrec]
      rcases le_or_lt (xs.length + 1) size with hle | hlt
      · have h1 : xs.length + 1 - size = 0 := by omega
        rw [h1]
        have h2 : (0 + size - 1) / size = 0 := Nat.div_eq_of_lt (by omega)
        have h3 : (xs.length + 1 + size - 1) / size = 1 := by
          rw [Nat.div_eq_sub_div (by omega) (by omega)]
          have : xs.length + 1 + size - 1 - size = xs.length + 1 - 1 := by omega
          rw [this]
          have : (xs.length + 1 - 1) / size = 0 := Nat.div_eq_of_lt (by omega)
          rw [this]
        rw [h2, h3]
      · have h1 : xs.length + 1 - size + size - 1 = xs.length := by omega
        have h2 : xs.length + 1 + size - 1 = xs.length + size := by omega
        rw [h1, h2, Nat.add_div_right _ (by omega)]

theorem chunkAux_size_le (size : Nat) :
    ∀ fuel xs, ∀ b ∈ chunkAux size fuel xs, b.length ≤ size := by
  intro fuel
  induction fuel with
  | zero =>
    intro xs b hb
    cases xs with
    | nil => cases hb
    | cons x xs => cases hb
  | succ fuel ih =>
    intro xs b hb
    cases xs with
    | nil => cases hb
    | cons x xs =>
      simp only [chunkAux, List.mem_cons] at hb
      rcases hb with rfl | hb
      · simp [List.length_take]
      · exact ih _ _ hb

theorem effectiveBatchSize_pos (cfg : Config) {B : Nat} (hB : 1 ≤ B) :
    1 ≤ effectiveBatchSize cfg B := by
  unfold effectiveBatchSize
  split <;> omega

/-- C3: for every frame list and batch size B ≥ 1, the planning step
partitions the input into ⌈N/B⌉ contiguous batches (with the effective,
possibly clamped size) whose concatenation reproduces the original frame
sequence exactly — no frame lost or duplicated.  `(N + e - 1) / e` is the
ceiling of `N / e` in natural division. -/
theorem partition_exact (cfg : Config) (frames : List Frame) (B : Nat) (hB : 1 ≤ B) :
    (chunkList (effectiveBatchSize cfg B) frames).flatten = frames ∧
    (chunkList (effectiveBatchSize cfg B) frames).length
      = (frames.length + effectiveBatchSize cfg B - 1) / effectiveBatchSize cfg B := by
  have he := effectiveBatchSize_pos cfg hB
  exact ⟨chunkAux_flatten _ he _ _ (Nat.le_refl _),
    chunkAux_length _ he _ _ (Nat.le_refl _)⟩

/-- Witness for `partition_exact` at a concrete five-frame list with
requested batch size 2 on the custom backend. -/
theorem partition_exact_witness :
    (1 ≤ 2) ∧
    ((chunkList (effectiveBatchSize ⟨true, false⟩ 2)
        [⟨0, none, none, none, none, none, none, none⟩,
         ⟨1, none, none, none, none, none, none, none⟩,
         ⟨2, none, none, none, none, none, none, none⟩,
         ⟨3, none, none, none, none, none, none, none⟩,
         ⟨4, none, none, none, none, none, none, none⟩]).flatten
      = [⟨0, none, none, none, none, none, none, none⟩,
         ⟨1, none, none, none, none, none, none, none⟩,
         ⟨2, none, none, none, none, none, none, none⟩,
         ⟨3, none, none, none, none, none, none, none⟩,
         ⟨4, none, none, none, none, none, none, none⟩] ∧
     (chunkList (effectiveBatchSize ⟨true, false⟩ 2)
        [⟨0, none, none, none, none, none, none, none⟩,
         ⟨1, none, none, none, none, none, none, none⟩,
         ⟨2, none, none, none, none, none, none, none⟩,
         ⟨3, none, none, none, none, none, none, none⟩,
         ⟨4, none, none, none, none, none, none, none⟩]).length
      = (5 + effectiveBatchSize ⟨true, false⟩ 2 - 1) / effectiveBatchSize ⟨true, false⟩ 2) :=
  ⟨by omega, partition_exact ⟨true, false⟩ _ 2 (by omega)⟩

/-- C6: with the custom-GPT backend active the effective batch size is
`min batch_size 2`; with the standard backend the requested batch size is
used unchanged; and every planned batch respects the effective bound. -/
theorem batch_size_clamp (cfg : Config) (frames : List Frame) (B : Nat) (hB : 1 ≤ B) :
    (cfg.useCustomGpt = true → effectiveBatchSize cfg B = min B 2) ∧
    (cfg.useCustomGpt = false → effectiveBatchSize cfg B = B) ∧
    (∀ b ∈ chunkList (effectiveBatchSize cfg B) frames,
      b.length ≤ effectiveBatchSize cfg B) := by
  refine ⟨fun h => ?_, fun h => ?_, fun b hb => chunkAux_size_le _ _ _ b hb⟩
  · simp [effectiveBatchSize, h]
  · simp [effectiveBatchSize, h]

/-- Witness for `batch_size_clamp` on both backends at batch size 10. -/
theorem batch_size_clamp_witness :
    (effectiveBatchSize ⟨true, true⟩ 10 = min 10 2) ∧
    (effectiveBatchSize ⟨false, true⟩ 10 = 10) :=
  ⟨(batch_size_clamp ⟨true, true⟩ [] 10 (by omega)).1 rfl,
   (batch_size_clamp ⟨false, true⟩ [] 10 (by omega)).2.1 rfl⟩

/-! ### Length preservation through the pipeline -/

theorem mapBatchResults_length :
    ∀ (fs : List Frame) (rs : List Json) (out : List Frame),
      mapBatchResults fs rs = .ok out → out.length = fs.length := by
  intro fs
  induction fs with
  | nil =>
    intro rs out h
    cases rs <;> simp only [mapBatchResults, Except.ok.injEq] at h <;> simp [← h]
  | cons f fs ih =>
    intro rs out h
    cases rs with
    | nil =>
      simp only [mapBatchResults, Except.map] at h
      cases hm : mapBatchResults fs [] with
      | ok out' =>
        rw [hm] at h
        simp only [Except.ok.injEq] at h
        simp [← h, List.length_cons, ih _ _ hm]
      | error e => rw [hm] at h; cases h
    | cons r rs =>
      cases r with
      | obj kvs =>
        simp only [mapBatchResults, Except.map] at h
        cases hm : mapBatchResults fs rs with
        | ok out' =>
          rw [hm] at h
          simp only [Except.ok.injEq] at h
          simp [← h, List.length_cons, ih _ _ hm]
        | error e => rw [hm] at h; cases h
      | null => cases h
      | bool b => cases h
      | num n => cases h
      | str s => cases h
      | arr xs => cases h

theorem analyze_frame_batch_ok_length (cfg : Config) (oracle : Oracle) :
    ∀ (b out : List Frame),
      (analyze_frame_batch cfg oracle b).1 = .ok out → out.length = b.length := by
  intro b out h
  by_cases h1 : (!cfg.useCustomGpt && !cfg.hasOpenAIClient) = true
  · simp [analyze_frame_batch, h1] at h
  · by_cases h2 : b.isEmpty
    · simp only [analyze_frame_batch, h1, if_false, Bool.false_eq_true, h2, if_true] at h
      simp only [Except.ok.injEq] at h
      rw [← h]
      simp [List.isEmpty_iff.mp h2]
    · by_cases h3 : (b.filterMap Frame.imagePath).isEmpty
      · simp only [analyze_frame_batch, h1, Bool.false_eq_true, if_false, h2, h3,
          if_true] at h
        simp only [Except.ok.injEq] at h
        rw [← h]
      · cases hov : oracle b with
        | raises msg =>
          simp only [analyze_frame_batch, h1, Bool.false_eq_true, if_false, h2, h3,
            hov] at h
          simp only [Except.ok.injEq] at h
          simp [← h]
        | badJson msg =>
          simp only [analyze_frame_batch, h1, Bool.false_eq_true, if_false, h2, h3,
            hov] at h
          simp only [Except.ok.injEq] at h
          simp [← h]
        | parsed j =>
          simp only [analyze_frame_batch, h1, Bool.false_eq_true, if_false, h2, h3,
            hov] at h
          cases hex : extractBatchResults j with
          | error msg =>
            rw [hex] at h
            simp only [Except.ok.injEq] at h
            simp [← h]
          | ok results =>
            simp only [hex] at h
            cases hm : mapBatchResults b results with
            | ok out' =>
              simp only [hm, Except.ok.injEq] at h
              rw [← h]
              exact mapBatchResults_length _ _ _ hm
            | error msg =>
              simp only [hm, Except.ok.injEq] at h
              simp [← h]

theorem individualFallback_length (cfg : Config) (oracle : Oracle) :
    ∀ fs : List Frame, (individualFallback cfg oracle fs).1.length = fs.length := by
  intro fs
  induction fs with
  | nil => rfl
  | cons f fs ih =>
    simp only [individualFallback]
    cases hr : (analyze_frame_batch cfg oracle [f]).1 with
    | ok res =>
      have hlen : res.length = 1 := analyze_frame_batch_ok_length cfg oracle [f] res hr
      have hne : res.isEmpty = false := by
        cases res with
        | nil => cases hlen
        | cons a as => rfl
      simp only [hr, hne, Bool.false_eq_true, if_false, List.length_append, hlen, ih,
        List.length_cons]
      omega
    | error msg =>
      simp only [hr, List.length_cons, ih]

theorem with_semaphore_length (cfg : Config) (oracle : Oracle) (b : List Frame) :
    (analyze_batch_with_semaphore cfg oracle b).1.length = b.length := by
  unfold analyze_batch_with_semaphore
  cases hr : analyze_frame_batch cfg oracle b with
  | mk r calls =>
    cases r with
    | ok res =>
      have : (analyze_frame_batch cfg oracle b).1 = .ok res := by rw [hr]
      exact analyze_frame_batch_ok_length cfg oracle b res this
    | error msg =>
      by_cases h413 : is413Error msg = true
      · simp [h413, individualFallback_length]
      · simp [h413]

theorem flatten_with_semaphore_length (cfg : Config) (oracle : Oracle) :
    ∀ bs : List (List Frame),
      ((bs.map (analyze_batch_with_semaphore cfg oracle)).map Prod.fst).flatten.length
        = bs.flatten.length := by
  intro bs
  induction bs with
  | nil => rfl
  | cons b bs ih =>
    simp only [List.map_cons, List.flatten_cons, List.length_append, ih,
      with_semaphore_length]

/-- C2: for every input frame list and every oracle behaviour (any mix of
per-batch success and failure), `batch_analyze_frames` is a total function
— the model never produces an exception at job level — whose result list
has exactly the input's length; success or failure lives only in the
per-frame `error` field. -/
theorem result_length_eq_input (cfg : Config) (oracle : Oracle) (frames : List Frame)
    (B : Nat) (hB : 1 ≤ B) :
    ((batch_analyze_frames cfg oracle frames B).1).length = frames.length := by
  by_cases h1 : (!cfg.useCustomGpt && !cfg.hasOpenAIClient) = true
  · simp [batch_analyze_frames, h1]
  · by_cases h2 : frames.isEmpty
    · simp [batch_analyze_frames, h1, h2, List.isEmpty_iff.mp h2]
    · simp only [batch_analyze_frames, h1, Bool.false_eq_true, if_false, h2]
      simp only [mergeResults, sortByTimestamp]
      rw [(List.perm_insertionSort tsLe _).length_eq]
      rw [flatten_with_semaphore_length]
      rw [show (chunkList (effectiveBatchSize cfg B) frames).flatten = frames from
        chunkAux_flatten _ (effectiveBatchSize_pos cfg hB) _ _ (Nat.le_refl _)]

/-- Witness for `result_length_eq_input`: three frames, batch size 2,
custom backend, an oracle that rejects every call. -/
theorem result_length_eq_input_witness :
    ((batch_analyze_frames ⟨true, false⟩ (fun _ => .raises ("boom".toList))
        [⟨0, some ("a".toList), none, none, none, none, none, none⟩,
         ⟨1, some ("b".toList), none, none, none, none, none, none⟩,
         ⟨2, some ("c".toList), none, none, none, none, none, none⟩] 2).1).length = 3 :=
  result_length_eq_input ⟨true, false⟩ _ _ 2 (by omega)

/-! ### Sorting and determinism of the merge step -/

theorem perm_flatten {α : Type} {l₁ l₂ : List (List α)} (h : List.Perm l₁ l₂) :
    List.Perm l₁.flatten l₂.flatten := by
  induction h with
  | nil => rfl
  | cons x _ ih => simpa using ih.append_left x
  | swap x y l =>
    simp only [List.flatten_cons]
    have h1 : x ++ (y ++ l.flatten) = (x ++ y) ++ l.flatten := by rw [List.append_assoc]
    have h2 : List.Perm ((x ++ y) ++ l.flatten) ((y ++ x) ++ l.flatten) :=
      (List.perm_append_comm).append_right _
    have h3 : (y ++ x) ++ l.flatten = y ++ (x ++ l.flatten) := by rw [List.append_assoc]
    rw [← h3, h1]
    exact h2.symm
  | trans _ _ ih₁ ih₂ => exact ih₁.trans ih₂

/-- Two sorted lists of frames that are permutations of each other and whose
timestamps are pairwise distinct are equal: a stable sort's output is fully
determined. -/
theorem eq_of_perm_sorted_nodup :
    ∀ l₁ l₂ : List Frame, List.Perm l₁ l₂ → (l₁.map Frame.timestamp).Nodup →
      l₁.Sorted tsLe → l₂.Sorted tsLe → l₁ = l₂ := by
  intro l₁
  induction l₁ with
  | nil =>
    intro l₂ hp _ _ _
    exact (hp.symm.eq_nil).symm
  | cons a t₁ ih =>
    intro l₂ hp hnd hs₁ hs₂
    cases l₂ with
    | nil => exact absurd hp.eq_nil (by simp)
    | cons b t₂ =>
      have hab : a = b := by
        have haIn : a ∈ b :: t₂ := hp.mem_iff.mp (List.mem_cons_self a t₁)
        rcases List.mem_cons.mp haIn with h | haT2
        · exact h
        · have hba : b.timestamp ≤ a.timestamp := (List.pairwise_cons.mp hs₂).1 a haT2
          have hbIn : b ∈ a :: t₁ := hp.symm.mem_iff.mp (List.mem_cons_self b t₂)
          rcases List.mem_cons.mp hbIn with h' | hbT1
          · exact h'.symm
          · have hab' : a.timestamp ≤ b.timestamp := (List.pairwise_cons.mp hs₁).1 b hbT1
            have hkey : a.timestamp = b.timestamp := Nat.le_antisymm hab' hba
            have hnotin : a.timestamp ∉ t₁.map Frame.timestamp :=
              (List.nodup_cons.mp (by simpa using hnd)).1
            have hin : a.timestamp ∈ t₁.map Frame.timestamp := by
              rw [hkey]
              exact List.mem_map_of_mem Frame.timestamp hbT1
            exact absurd hin hnotin
      subst hab
      have ht : List.Perm t₁ t₂ := hp.cons_inv
      have hndt : (t₁.map Frame.timestamp).Nodup :=
        (List.nodup_cons.mp (by simpa using hnd)).2
      congr 1
      exact ih t₂ ht hndt (List.pairwise_cons.mp hs₁).2 (List.pairwise_cons.mp hs₂).2

/-- The merge step is invariant under any reordering of the per-batch result
lists (the order in which concurrent batch tasks complete), as long as the
frames carry pairwise distinct timestamps. -/
theorem mergeResults_perm_invariant (rs rs' : List (List Frame)) (hperm : List.Perm rs rs')
    (hnd : ((rs.flatten).map Frame.timestamp).Nodup) :
    mergeResults rs = mergeResults rs' := by
  have hflat : List.Perm rs.flatten rs'.flatten := perm_flatten hperm
  have hsortp : List.Perm (sortByTimestamp rs.flatten) (sortByTimestamp rs'.flatten) :=
    ((List.perm_insertionSort tsLe _).trans hflat).trans
      (List.perm_insertionSort tsLe _).symm
  have hnd₁ : ((sortByTimestamp rs.flatten).map Frame.timestamp).Nodup := by
    have hp : List.Perm ((sortByTimestamp rs.flatten).map Frame.timestamp)
        ((rs.flatten).map Frame.timestamp) :=
      (List.perm_insertionSort tsLe _).map Frame.timestamp
    exact hp.nodup_iff.mpr hnd
  exact eq_of_perm_sorted_nodup _ _ hsortp hnd₁
    (List.sorted_insertionSort tsLe _) (List.sorted_insertionSort tsLe _)

/-- C5: the result list of `batch_analyze_frames` is sorted by ascending
timestamp whenever the input respects the Frame invariant (timestamps
non-decreasing across the extracted sequence — the configuration-error
branch returns the input order unsorted, so some assumption on the input
is needed there), and the merge step is deterministic: permuting the
per-batch results, i.e. letting concurrent batches complete in any order,
yields the identical final list when timestamps are pairwise distinct. -/
theorem merged_sorted_deterministic (cfg : Config) (oracle : Oracle)
    (frames : List Frame) (B : Nat) (hs : frames.Sorted tsLe) :
    ((batch_analyze_frames cfg oracle frames B).1).Sorted tsLe ∧
    (∀ rs rs' : List (List Frame), List.Perm rs rs' →
      ((rs.flatten).map Frame.timestamp).Nodup → mergeResults rs = mergeResults rs') := by
  refine ⟨?_, mergeResults_perm_invariant⟩
  by_cases h1 : (!cfg.useCustomGpt && !cfg.hasOpenAIClient) = true
  · simp only [batch_analyze_frames, h1, if_true]
    exact List.Pairwise.map _ (fun a b hab => hab) hs
  · by_cases h2 : frames.isEmpty
    · simp [batch_analyze_frames, h1, h2]
    · simp only [batch_analyze_frames, h1, Bool.false_eq_true, if_false, h2]
      exact List.sorted_insertionSort tsLe _

/-- Witness for `merged_sorted_deterministic`: two frames in ascending
order on the standard backend with an oracle that always fails decoding. -/
theorem merged_sorted_deterministic_witness :
    ([⟨0, some ("a".toList), none, none, none, none, none, none⟩,
      ⟨7, some ("b".toList), none, none, none, none, none, none⟩] :
        List Frame).Sorted tsLe ∧
    ((batch_analyze_frames ⟨false, true⟩ (fun _ => .badJson ("bad".toList))
        [⟨0, some ("a".toList), none, none, none, none, none, none⟩,
         ⟨7, some ("b".toList), none, none, none, none, none, none⟩] 10).1).Sorted tsLe :=
  have hs : ([⟨0, some ("a".toList), none, none, none, none, none, none⟩,
      ⟨7, some ("b".toList), none, none, none, none, none, none⟩] :
        List Frame).Sorted tsLe := by
    refine List.pairwise_cons.mpr ⟨fun b hb => ?_, List.pairwise_singleton _ _⟩
    rcases List.mem_singleton.mp hb with rfl
    exact Nat.zero_le 7
  ⟨hs, (merged_sorted_deterministic ⟨false, true⟩ _ _ 10 hs).1⟩

/-! ### Error-field guarantees -/

/-- Per-frame guarantee: a set error field is a non-empty string and comes
with a description. -/
def errOk (f : Frame) : Prop :=
  ∀ e, f.error = some e → e ≠ [] ∧ f.description ≠ none

/-- All exception and decode-error messages the oracle produces are
non-empty (Python exception texts of the transport and json libraries are
never the empty string). -/
def oracleMsgsNonempty (oracle : Oracle) : Prop :=
  ∀ b, match oracle b with
    | .raises m => m ≠ []
    | .badJson m => m ≠ []
    | .parsed _ => True

theorem extractBatchResults_error_nonempty :
    ∀ j msg, extractBatchResults j = .error msg → msg ≠ [] := by
  intro j msg h
  cases j with
  | obj kvs =>
    simp only [extractBatchResults] at h
    rcases hl : jLookup kvs ("frames".toList) with _ | v
    · rw [hl] at h
      dsimp only at h
      by_cases hts : ((jLookup kvs ("timestamp".toList)).isSome
          || (jLookup kvs ("description".toList)).isSome) = true
      · rw [if_pos hts] at h
        cases h
      · rw [if_neg hts] at h
        cases hfa : firstArrayValue kvs with
        | some xs =>
          rw [hfa] at h
          dsimp only at h
          cases h
        | none =>
          rw [hfa] at h
          dsimp only at h
          have := (Except.error.injEq _ _).mp h
          rw [← this]
          simp
    · rw [hl] at h
      cases v <;> dsimp only at h <;> cases h
  | arr xs => cases h
  | null =>
    simp only [extractBatchResults, Except.error.injEq] at h
    rw [← h]
    simp
  | bool b =>
    simp only [extractBatchResults, Except.error.injEq] at h
    rw [← h]
    simp
  | num n =>
    simp only [extractBatchResults, Except.error.injEq] at h
    rw [← h]
    simp
  | str s =>
    simp only [extractBatchResults, Except.error.injEq] at h
    rw [← h]
    simp

theorem attrGetMsg_nonempty (j : Json) : attrGetMsg j ≠ [] := by
  simp [attrGetMsg]

theorem mapBatchResults_error_nonempty :
    ∀ (fs : List Frame) (rs : List Json) msg,
      mapBatchResults fs rs = .error msg → msg ≠ [] := by
  intro fs
  induction fs with
  | nil =>
    intro rs msg h
    cases rs <;> cases h
  | cons f fs ih =>
    intro rs msg h
    cases rs with
    | nil =>
      simp only [mapBatchResults, Except.map] at h
      cases hm : mapBatchResults fs [] with
      | ok out' => rw [hm] at h; cases h
      | error e =>
        rw [hm] at h
        cases h
        exact ih _ _ hm
    | cons r rs =>
      cases r with
      | obj kvs =>
        simp only [mapBatchResults, Except.map] at h
        cases hm : mapBatchResults fs rs with
        | ok out' => rw [hm] at h; cases h
        | error e =>
          rw [hm] at h
          cases h
          exact ih _ _ hm
      | null => cases h; exact attrGetMsg_nonempty _
      | bool b => cases h; exact attrGetMsg_nonempty _
      | num n => cases h; exact attrGetMsg_nonempty _
      | str s => cases h; exact attrGetMsg_nonempty _
      | arr xs => cases h; exact attrGetMsg_nonempty _

theorem mapBatchResults_mem :
    ∀ (fs : List Frame) (rs : List Json) (out : List Frame),
      mapBatchResults fs rs = .ok out → ∀ g ∈ out,
        (∃ f ∈ fs, ∃ kvs, g = applyResult f kvs) ∨ (∃ f ∈ fs, g = missingResultFill f) := by
  intro fs
  induction fs with
  | nil =>
    intro rs out h g hg
    cases rs <;> simp only [mapBatchResults, Except.ok.injEq] at h <;>
      (rw [← h] at hg; cases hg)
  | cons f fs ih =>
    intro rs out h g hg
    cases rs with
    | nil =>
      simp only [mapBatchResults, Except.map] at h
      cases hm : mapBatchResults fs [] with
      | ok out' =>
        rw [hm] at h
        simp only [Except.ok.injEq] at h
        rw [← h] at hg
        rcases List.mem_cons.mp hg with rfl | hg'
        · exact Or.inr ⟨f, List.mem_cons_self f fs, rfl⟩
        · rcases ih _ _ hm g hg' with ⟨f', hf', kvs, hgk⟩ | ⟨f', hf', hgk⟩
          · exact Or.inl ⟨f', List.mem_cons_of_mem f hf', kvs, hgk⟩
          · exact Or.inr ⟨f', List.mem_cons_of_mem f hf', hgk⟩
      | error e => rw [hm] at h; cases h
    | cons r rs =>
      cases r with
      | obj kvs =>
        simp only [mapBatchResults, Except.map] at h
        cases hm : mapBatchResults fs rs with
        | ok out' =>
          rw [hm] at h
          simp only [Except.ok.injEq] at h
          rw [← h] at hg
          rcases List.mem_cons.mp hg with rfl | hg'
          · exact Or.inl ⟨f, List.mem_cons_self f fs, kvs, rfl⟩
          · rcases ih _ _ hm g hg' with ⟨f', hf', kvs', hgk⟩ | ⟨f', hf', hgk⟩
            · exact Or.inl ⟨f', List.mem_cons_of_mem f hf', kvs', hgk⟩
            · exact Or.inr ⟨f', List.mem_cons_of_mem f hf', hgk⟩
        | error e => rw [hm] at h; cases h
      | null => cases h
      | bool b => cases h
      | num n => cases h
      | str s => cases h
      | arr xs => cases h

theorem analyze_frame_batch_error_msg (cfg : Config) (oracle : Oracle) (b : List Frame)
    {msg : List Char} (h : (analyze_frame_batch cfg oracle b).1 = .error msg) :
    msg = noKeyMsg := by
  by_cases h1 : (!cfg.useCustomGpt && !cfg.hasOpenAIClient) = true
  · simp only [analyze_frame_batch, h1, if_true] at h
    cases h
    rfl
  · by_cases h2 : b.isEmpty
    · simp [analyze_frame_batch, h1, h2] at h
    · by_cases h3 : (b.filterMap Frame.imagePath).isEmpty
      · simp [analyze_frame_batch, h1, h2, h3] at h
      · cases hov : oracle b with
        | raises m => simp [analyze_frame_batch, h1, h2, h3, hov] at h
        | badJson m => simp [analyze_frame_batch, h1, h2, h3, hov] at h
        | parsed j =>
          simp only [analyze_frame_batch, h1, Bool.false_eq_true, if_false, h2, h3,
            hov] at h
          cases hex : extractBatchResults j with
          | error m => simp [hex] at h
          | ok results =>
            simp only [hex] at h
            cases hm : mapBatchResults b results with
            | ok out' => simp [hm] at h
            | error m => simp [hm] at h

theorem batchErrorMark_errOk {msg : List Char} (hm : msg ≠ []) (f : Frame) :
    errOk (batchErrorMark msg f) := by
  intro e he
  simp only [batchErrorMark, Option.some.injEq] at he
  subst he
  exact ⟨hm, by simp [batchErrorMark]⟩

theorem parseErrorMark_errOk {msg : List Char} (hm : msg ≠ []) (f : Frame) :
    errOk (parseErrorMark msg f) := by
  intro e he
  simp only [parseErrorMark, Option.some.injEq] at he
  subst he
  exact ⟨hm, by simp [parseErrorMark]⟩

theorem semaphoreErrorMark_errOk {msg : List Char} (hm : msg ≠ []) (f : Frame) :
    errOk (semaphoreErrorMark msg f) := by
  intro e he
  simp only [semaphoreErrorMark, Option.some.injEq] at he
  subst he
  exact ⟨hm, by simp [semaphoreErrorMark]⟩

theorem frameErrorMark_errOk {msg : List Char} (hm : msg ≠ []) (f : Frame) :
    errOk (frameErrorMark msg f) := by
  intro e he
  simp only [frameErrorMark, Option.some.injEq] at he
  subst he
  exact ⟨hm, by simp [frameErrorMark]⟩

theorem missingResultFill_errOk (f : Frame) : errOk (missingResultFill f) := by
  intro e he
  simp only [missingResultFill, Option.some.injEq] at he
  subst he
  exact ⟨by simp, by simp [missingResultFill]⟩

theorem applyResult_errOk {f : Frame} (hf : f.error = none) (kvs : List (List Char × Json)) :
    errOk (applyResult f kvs) := by
  intro e he
  simp only [applyResult] at he
  rw [hf] at he
  cases he

theorem analyze_frame_batch_errOk (cfg : Config) (oracle : Oracle)
    (hor : oracleMsgsNonempty oracle) (b : List Frame) (out : List Frame)
    (hin : ∀ f ∈ b, f.error = none)
    (h : (analyze_frame_batch cfg oracle b).1 = .ok out) :
    ∀ f ∈ out, errOk f := by
  intro g hg
  by_cases h1 : (!cfg.useCustomGpt && !cfg.hasOpenAIClient) = true
  · simp [analyze_frame_batch, h1] at h
  · by_cases h2 : b.isEmpty
    · simp only [analyze_frame_batch, h1, Bool.false_eq_true, if_false, h2, if_true,
        Except.ok.injEq] at h
      rw [← h] at hg
      cases hg
    · by_cases h3 : (b.filterMap Frame.imagePath).isEmpty
      · simp only [analyze_frame_batch, h1, Bool.false_eq_true, if_false, h2, h3,
          if_true, Except.ok.injEq] at h
        rw [← h] at hg
        intro e he
        rw [hin g hg] at he
        cases he
      · cases hov : oracle b with
        | raises msg =>
          simp only [analyze_frame_batch, h1, Bool.false_eq_true, if_false, h2, h3, hov,
            Except.ok.injEq] at h
          rw [← h] at hg
          rcases List.mem_map.mp hg with ⟨f, _, rfl⟩
          have hm : msg ≠ [] := by have := hor b; rw [hov] at this; exact this
          exact batchErrorMark_errOk hm f
        | badJson msg =>
          simp only [analyze_frame_batch, h1, Bool.false_eq_true, if_false, h2, h3, hov,
            Except.ok.injEq] at h
          rw [← h] at hg
          rcases List.mem_map.mp hg with ⟨f, _, rfl⟩
          have hm : msg ≠ [] := by have := hor b; rw [hov] at this; exact this
          exact parseErrorMark_errOk hm f
        | parsed j =>
          simp only [analyze_frame_batch, h1, Bool.false_eq_true, if_false, h2, h3,
            hov] at h
          cases hex : extractBatchResults j with
          | error msg =>
            simp only [hex, Except.ok.injEq] at h
            rw [← h] at hg
            rcases List.mem_map.mp hg with ⟨f, _, rfl⟩
            exact batchErrorMark_errOk (extractBatchResults_error_nonempty j msg hex) f
          | ok results =>
            simp only [hex] at h
            cases hm : mapBatchResults b results with
            | ok out' =>
              simp only [hm, Except.ok.injEq] at h
              rw [← h] at hg
              rcases mapBatchResults_mem b results out' hm g hg with
                ⟨f, hf, kvs, rfl⟩ | ⟨f, hf, rfl⟩
              · exact applyResult_errOk (hin f hf) kvs
              · exact missingResultFill_errOk f
            | error msg =>
              simp only [hm, Except.ok.injEq] at h
              rw [← h] at hg
              rcases List.mem_map.mp hg with ⟨f, _, rfl⟩
              exact batchErrorMark_errOk (mapBatchResults_error_nonempty b results msg hm) f

theorem individualFallback_errOk (cfg : Config) (oracle : Oracle)
    (hor : oracleMsgsNonempty oracle) :
    ∀ b : List Frame, (∀ f ∈ b, f.error = none) →
      ∀ g ∈ (individualFallback cfg oracle b).1, errOk g := by
  intro b
  induction b with
  | nil =>
    intro _ g hg
    cases hg
  | cons f fs ih =>
    intro hin g hg
    simp only [individualFallback] at hg
    cases hr : (analyze_frame_batch cfg oracle [f]).1 with
    | ok res =>
      rw [hr] at hg
      simp only at hg
      rcases List.mem_append.mp hg with hg1 | hg2
      · by_cases hres : res.isEmpty
        · rw [if_pos hres] at hg1
          cases hg1
        · rw [if_neg hres] at hg1
          have hin1 : ∀ x ∈ [f], x.error = none := by
            intro x hx
            have hxf : x = f := List.mem_singleton.mp hx
            rw [hxf]
            exact hin f (List.mem_cons_self f fs)
          exact analyze_frame_batch_errOk cfg oracle hor [f] res hin1 hr g hg1
      · exact ih (fun x hx => hin x (List.mem_cons_of_mem f hx)) g hg2
    | error msg =>
      rw [hr] at hg
      simp only at hg
      rcases List.mem_cons.mp hg with rfl | hg2
      · have : msg = noKeyMsg := analyze_frame_batch_error_msg cfg oracle [f] hr
        subst this
        exact frameErrorMark_errOk (by simp [noKeyMsg]) f
      · exact ih (fun x hx => hin x (List.mem_cons_of_mem f hx)) g hg2

theorem with_semaphore_errOk (cfg : Config) (oracle : Oracle)
    (hor : oracleMsgsNonempty oracle) (b : List Frame)
    (hin : ∀ f ∈ b, f.error = none) :
    ∀ g ∈ (analyze_batch_with_semaphore cfg oracle b).1, errOk g := by
  intro g hg
  unfold analyze_batch_with_semaphore at hg
  cases hr : analyze_frame_batch cfg oracle b with
  | mk r calls =>
    rw [hr] at hg
    cases r with
    | ok res =>
      exact analyze_frame_batch_errOk cfg oracle hor b res hin
        (by rw [hr]) g hg
    | error msg =>
      have hmsg : msg = noKeyMsg := analyze_frame_batch_error_msg cfg oracle b (by rw [hr])
      by_cases h413 : is413Error msg = true
      · simp only [h413, if_true] at hg
        exact individualFallback_errOk cfg oracle hor b hin g hg
      · simp only [h413, Bool.false_eq_true, if_false] at hg
        rcases List.mem_map.mp hg with ⟨f, _, rfl⟩
        subst hmsg
        exact semaphoreErrorMark_errOk (by simp [noKeyMsg]) f

theorem chunk_mem (size : Nat) :
    ∀ fuel (xs : List Frame), ∀ b ∈ chunkAux size fuel xs, ∀ f ∈ b, f ∈ xs := by
  intro fuel
  induction fuel with
  | zero =>
    intro xs b hb
    cases xs with
    | nil => cases hb
    | cons x xs => cases hb
  | succ fuel ih =>
    intro xs b hb f hf
    cases xs with
    | nil => cases hb
    | cons x xs =>
      simp only [chunkAux, List.mem_cons] at hb
      rcases hb with rfl | hb
      · exact List.take_subset _ _ hf
      · exact List.drop_subset _ _ (ih _ _ hb f hf)

/-- C9 (amended): over every failure path that marks frames — transport and
timeout exceptions, JSON decode failures, frames-array extraction failures,
attribute errors, missing batch positions, the missing-credential path —
each affected frame carries a non-empty error string together with a set
description, assuming fresh input frames and non-empty exception texts.
The one exception, forced by the counterexample, is a batch in which no
frame has a readable image path: `analyze_frame_batch` returns such a batch
completely unmodified (no error, no description), so a consumer cannot
distinguish those failed frames from unprocessed ones. -/
theorem failed_frames_carry_error (cfg : Config) (oracle : Oracle) (frames : List Frame)
    (B : Nat) (hor : oracleMsgsNonempty oracle) (hin : ∀ f ∈ frames, f.error = none) :
    (∀ f ∈ (batch_analyze_frames cfg oracle frames B).1, errOk f) ∧
    (∀ b : List Frame, b.isEmpty = false → (b.filterMap Frame.imagePath).isEmpty = true →
      (cfg.useCustomGpt || cfg.hasOpenAIClient) = true →
      analyze_frame_batch cfg oracle b = (.ok b, [])) := by
  constructor
  · intro g hg
    by_cases h1 : (!cfg.useCustomGpt && !cfg.hasOpenAIClient) = true
    · simp only [batch_analyze_frames, h1, if_true] at hg
      rcases List.mem_map.mp hg with ⟨f, _, rfl⟩
      intro e he
      simp only [Option.some.injEq] at he
      subst he
      exact ⟨by simp [noKeyMsg], by simp⟩
    · by_cases h2 : frames.isEmpty
      · simp only [batch_analyze_frames, h1, Bool.false_eq_true, if_false, h2,
          if_true] at hg
        cases hg
      · simp only [batch_analyze_frames, h1, Bool.false_eq_true, if_false, h2,
          mergeResults, sortByTimestamp] at hg
        have hg' := (List.perm_insertionSort tsLe _).mem_iff.mp hg
        rcases List.mem_flatten.mp hg' with ⟨l, hl, hgl⟩
        rcases List.mem_map.mp hl with ⟨pr, hpr, rfl⟩
        rcases List.mem_map.mp hpr with ⟨bch, hbch, rfl⟩
        exact with_semaphore_errOk cfg oracle hor bch
          (fun f hf => hin f (chunk_mem _ _ _ _ hbch f hf)) g hgl
  · intro b hbne hbimg hcfg
    have h1 : (!cfg.useCustomGpt && !cfg.hasOpenAIClient) = false := by
      cases hcu : cfg.useCustomGpt <;> cases hcl : cfg.hasOpenAIClient <;>
        simp_all
    simp [analyze_frame_batch, h1, hbne, hbimg]

/-- Witness for `failed_frames_carry_error`: one path-less frame on the
custom backend with a non-empty-message oracle. -/
theorem failed_frames_carry_error_witness :
    (∀ f ∈ (batch_analyze_frames ⟨true, false⟩ (fun _ => .raises ("x".toList))
        [{ timestamp := 0 }] 10).1, errOk f) ∧
    (analyze_frame_batch ⟨true, false⟩ (fun _ => .raises ("x".toList))
        ([{ timestamp := 0 }] : List Frame) = (.ok [{ timestamp := 0 }], [])) :=
  have h := failed_frames_carry_error ⟨true, false⟩ (fun _ => .raises ("x".toList))
    [{ timestamp := 0 }] 10 (fun _ => by simp) (fun f hf => by
      rcases List.mem_singleton.mp hf with rfl; rfl)
  ⟨h.1, h.2 [{ timestamp := 0 }] rfl rfl rfl⟩

/-- C9 counterexample: a frame with no readable image path flows through
`batch_analyze_frames` completely untouched — its `error` field stays
absent and no description is set, although the frame was never analyzed,
contradicting the claim that every failure cause (including batches in
which no frame had a readable image path) yields a non-empty error
string. -/
theorem no_image_frame_unmarked_cex :
    (batch_analyze_frames ⟨true, false⟩ (fun _ => .raises ("x".toList))
        [{ timestamp := 0 }] 10).1 = [{ timestamp := 0 }] ∧
    ({ timestamp := 0 } : Frame).error = none ∧
    ({ timestamp := 0 } : Frame).description = none :=
  ⟨rfl, rfl, rfl⟩

/-! ### Positional mapping of short batch responses -/

theorem mapBatchResults_spec :
    ∀ (fs : List Frame) (rs : List Json),
      (∀ r ∈ rs, ∃ kvs, r = Json.obj kvs) →
      ∃ out, mapBatchResults fs rs = .ok out ∧ out.length = fs.length ∧
        (∀ i (hr : i < rs.length) (h : i < out.length) (h' : i < fs.length)
            (kvs : List (List Char × Json)), rs.get ⟨i, hr⟩ = .obj kvs →
          out.get ⟨i, h⟩ = applyResult (fs.get ⟨i, h'⟩) kvs) ∧
        (∀ i (h : i < out.length) (h' : i < fs.length), rs.length ≤ i →
          out.get ⟨i, h⟩ = missingResultFill (fs.get ⟨i, h'⟩)) := by
  intro fs
  induction fs with
  | nil =>
    intro rs hobj
    refine ⟨[], ?_, rfl, ?_, ?_⟩
    · cases rs with
      | nil => rfl
      | cons r rs =>
        rcases hobj r (List.mem_cons_self r rs) with ⟨kvs, rfl⟩
        rfl
    · intro i _ h
      cases h
    · intro i h
      cases h
  | cons f fs ih =>
    intro rs hobj
    cases rs with
    | nil =>
      rcases ih [] (by intro r hr; cases hr) with ⟨out', hm, hlen, _, hmiss⟩
      refine ⟨missingResultFill f :: out', ?_, by simp [hlen], ?_, ?_⟩
      · simp only [mapBatchResults, hm, Except.map]
      · intro i hr
        cases hr
      · intro i h h' _
        cases i with
        | zero => rfl
        | succ k =>
          exact hmiss k (Nat.lt_of_succ_lt_succ h) (Nat.lt_of_succ_lt_succ h')
            (Nat.zero_le k)
    | cons r rs =>
      rcases hobj r (List.mem_cons_self r rs) with ⟨kvs, rfl⟩
      rcases ih rs (fun r' hr' => hobj r' (List.mem_cons_of_mem _ hr')) with
        ⟨out', hm, hlen, hpos, hmiss⟩
      refine ⟨applyResult f kvs :: out', ?_, by simp [hlen], ?_, ?_⟩
      · simp only [mapBatchResults, hm, Except.map]
      · intro i hr h h' kvs' hget
        cases i with
        | zero =>
          simp only [List.get] at hget ⊢
          cases hget
          rfl
        | succ k =>
          exact hpos k (Nat.lt_of_succ_lt_succ hr) (Nat.lt_of_succ_lt_succ h)
            (Nat.lt_of_succ_lt_succ h') kvs' hget
      · intro i h h' hge
        cases i with
        | zero => cases hge
        | succ k =>
          exact hmiss k (Nat.lt_of_succ_lt_succ h) (Nat.lt_of_succ_lt_succ h')
            (Nat.le_of_succ_le_succ hge)

/-- C4 (amended): for every batch whose parsed response yields fewer result
entries than the batch has frames, provided every present entry is a JSON
object (the counterexample forces this proviso: a non-object entry makes
`result.get` raise an `AttributeError`, turning the whole batch into a
batch-level failure instead of the per-position fill), `analyze_frame_batch`
returns without raising a list of full batch length, maps entry `i` to
frame `i` positionally, and fills every position at or beyond the returned
array's length with the exact error string
`"Missing result in batch response"`. -/
theorem short_response_positional_fill (cfg : Config) (oracle : Oracle) (b : List Frame)
    (j : Json) (results : List Json)
    (hcfg : (cfg.useCustomGpt || cfg.hasOpenAIClient) = true)
    (hne : b.isEmpty = false) (himg : (b.filterMap Frame.imagePath).isEmpty = false)
    (hov : oracle b = .parsed j) (hex : extractBatchResults j = .ok results)
    (hobj : ∀ r ∈ results, ∃ kvs, r = Json.obj kvs)
    (hshort : results.length < b.length) :
    ∃ out, (analyze_frame_batch cfg oracle b).1 = .ok out ∧ out.length = b.length ∧
      (∀ i (hr : i < results.length) (h : i < out.length) (h' : i < b.length)
          (kvs : List (List Char × Json)), results.get ⟨i, hr⟩ = .obj kvs →
        out.get ⟨i, h⟩ = applyResult (b.get ⟨i, h'⟩) kvs) ∧
      (∀ i (h : i < out.length) (h' : i < b.length), results.length ≤ i →
        (out.get ⟨i, h⟩ = missingResultFill (b.get ⟨i, h'⟩) ∧
          (out.get ⟨i, h⟩).error = some ("Missing result in batch response".toList))) := by
  have h1 : (!cfg.useCustomGpt && !cfg.hasOpenAIClient) = false := by
    cases hcu : cfg.useCustomGpt
    · cases hcl : cfg.hasOpenAIClient
      · rw [hcu, hcl] at hcfg
        cases hcfg
      · simp
    · simp
  rcases mapBatchResults_spec b results hobj with ⟨out, hm, hlen, hpos, hmiss⟩
  refine ⟨out, ?_, hlen, hpos, ?_⟩
  · simp [analyze_frame_batch, h1, hne, himg, hov, hex, hm]
  · intro i h h' hge
    refine ⟨hmiss i h h' hge, ?_⟩
    rw [hmiss i h h' hge]
    rfl

/-- Witness for `short_response_positional_fill`: a 3-frame batch whose
reply carries two well-formed entries; position 2 is filled with the
missing-result error. -/
theorem short_response_positional_fill_witness :
    ∃ out, (analyze_frame_batch ⟨false, true⟩
        (fun _ => .parsed (.obj [("frames".toList,
          .arr [.obj [("description".toList, .str ("a".toList))],
                .obj [("description".toList, .str ("b".toList))]])]))
        [{ timestamp := 0, imagePath := some ("p0".toList) },
         { timestamp := 1, imagePath := some ("p1".toList) },
         { timestamp := 2, imagePath := some ("p2".toList) }]).1 = .ok out ∧
      out.length = 3 ∧
      (∀ i (hr : i < ([Json.obj [("description".toList, .str ("a".toList))],
            Json.obj [("description".toList, .str ("b".toList))]]).length)
          (h : i < out.length)
          (h' : i < ([{ timestamp := 0, imagePath := some ("p0".toList) },
            { timestamp := 1, imagePath := some ("p1".toList) },
            { timestamp := 2, imagePath := some ("p2".toList) }] : List Frame).length)
          (kvs : List (List Char × Json)),
        ([Json.obj [("description".toList, .str ("a".toList))],
          Json.obj [("description".toList, .str ("b".toList))]]).get ⟨i, hr⟩ = .obj kvs →
        out.get ⟨i, h⟩ = applyResult
          (([{ timestamp := 0, imagePath := some ("p0".toList) },
            { timestamp := 1, imagePath := some ("p1".toList) },
            { timestamp := 2, imagePath := some ("p2".toList) }] : List Frame).get ⟨i, h'⟩)
          kvs) ∧
      (∀ i (h : i < out.length)
          (h' : i < ([{ timestamp := 0, imagePath := some ("p0".toList) },
            { timestamp := 1, imagePath := some ("p1".toList) },
            { timestamp := 2, imagePath := some ("p2".toList) }] : List Frame).length),
        2 ≤ i →
        (out.get ⟨i, h⟩ = missingResultFill
            (([{ timestamp := 0, imagePath := some ("p0".toList) },
              { timestamp := 1, imagePath := some ("p1".toList) },
              { timestamp := 2, imagePath := some ("p2".toList) }] : List Frame).get ⟨i, h'⟩) ∧
          (out.get ⟨i, h⟩).error = some ("Missing result in batch response".toList))) := by
  have h := short_response_positional_fill ⟨false, true⟩
    (fun _ => .parsed (.obj [("frames".toList,
      .arr [.obj [("description".toList, .str ("a".toList))],
            .obj [("description".toList, .str ("b".toList))]])]))
    [{ timestamp := 0, imagePath := some ("p0".toList) },
     { timestamp := 1, imagePath := some ("p1".toList) },
     { timestamp := 2, imagePath := some ("p2".toList) }]
    (.obj [("frames".toList,
      .arr [.obj [("description".toList, .str ("a".toList))],
            .obj [("description".toList, .str ("b".toList))]])])
    [.obj [("description".toList, .str ("a".toList))],
     .obj [("description".toList, .str ("b".toList))]]
    rfl rfl rfl rfl rfl
    (by
      intro r hr
      rcases List.mem_cons.mp hr with rfl | hr'
      · exact ⟨_, rfl⟩
      · rcases List.mem_singleton.mp hr' with rfl
        exact ⟨_, rfl⟩)
    (by simp)
  exact h

/-- C4 counterexample: a 2-frame batch whose parsed reply is
`{"frames": [1]}` — fewer entries than frames, but the sole entry is not an
object.  `result.get` raises, the outer handler marks the whole batch with
the attribute-error text, and position 1 does not receive the
`"Missing result in batch response"` error the claim promises. -/
theorem short_response_nondict_cex :
    ((analyze_frame_batch ⟨false, true⟩
        (fun _ => .parsed (.obj [("frames".toList, .arr [.num 1])]))
        [{ timestamp := 0, imagePath := some ("p0".toList) },
         { timestamp := 1, imagePath := some ("p1".toList) }]).1.map
        (fun l => l.map Frame.error))
      = .ok [some (attrGetMsg (.num 1)), some (attrGetMsg (.num 1))] ∧
    attrGetMsg (.num 1) ≠ "Missing result in batch response".toList :=
  ⟨rfl, by decide⟩

/-! ### The dead oversize fallback and the empty-input paths -/

/-- C1: evaluation at the failing input.  With the custom backend active, a
2-frame batch whose model call raises the 413 oversize exception produces
one call log entry — the whole 2-frame batch — and zero size-1 calls: the
outer `try` of `analyze_frame_batch` catches the exception and returns
error-marked frames, so the per-frame fallback of
`analyze_batch_with_semaphore` (which tests for "413" in the message) never
runs.  Both frames carry the batch-level 413 error instead of independent
single-frame results, although `is413Error msg413` is true, i.e. the
fallback would have recognised the message had it ever seen it. -/
theorem oversize_batch_never_split :
    (batch_analyze_frames ⟨true, true⟩ (fun _ => .raises msg413)
        [{ timestamp := 0, imagePath := some ("p0".toList) },
         { timestamp := 1, imagePath := some ("p1".toList) }] 10).2
      = [[{ timestamp := 0, imagePath := some ("p0".toList) },
          { timestamp := 1, imagePath := some ("p1".toList) }]] ∧
    ((batch_analyze_frames ⟨true, true⟩ (fun _ => .raises msg413)
        [{ timestamp := 0, imagePath := some ("p0".toList) },
         { timestamp := 1, imagePath := some ("p1".toList) }] 10).1.map Frame.error)
      = [some msg413, some msg413] ∧
    ((batch_analyze_frames ⟨true, true⟩ (fun _ => .raises msg413)
        [{ timestamp := 0, imagePath := some ("p0".toList) },
         { timestamp := 1, imagePath := some ("p1".toList) }] 10).1.map Frame.description)
      = [some (.str ("Error in batch analysis: ".toList ++ msg413)),
         some (.str ("Error in batch analysis: ".toList ++ msg413))] ∧
    is413Error msg413 = true :=
  ⟨rfl, rfl, rfl, by decide⟩

/-- C10 (amended): for an empty frame list `batch_analyze_frames` returns
the empty list and makes no model call under every configuration; and
`analyze_frame_batch` does the same whenever some backend is configured —
but with no backend configured it raises the configuration `ValueError`
before reaching its empty-input check (still making no model call). -/
theorem empty_input_no_calls (cfg : Config) (oracle : Oracle) (B : Nat) :
    batch_analyze_frames cfg oracle [] B = ([], []) ∧
    ((cfg.useCustomGpt || cfg.hasOpenAIClient) = true →
      analyze_frame_batch cfg oracle [] = (.ok [], [])) ∧
    ((cfg.useCustomGpt || cfg.hasOpenAIClient) = false →
      analyze_frame_batch cfg oracle [] = (.error noKeyMsg, [])) := by
  refine ⟨?_, ?_, ?_⟩
  · by_cases h1 : (!cfg.useCustomGpt && !cfg.hasOpenAIClient) = true
    · simp [batch_analyze_frames, h1]
    · simp [batch_analyze_frames, h1]
  · intro hcfg
    have h1 : (!cfg.useCustomGpt && !cfg.hasOpenAIClient) = false := by
      cases hcu : cfg.useCustomGpt
      · cases hcl : cfg.hasOpenAIClient
        · rw [hcu, hcl] at hcfg
          cases hcfg
        · simp
      · simp
    simp [analyze_frame_batch, h1]
  · intro hcfg
    have h1 : (!cfg.useCustomGpt && !cfg.hasOpenAIClient) = true := by
      cases hcu : cfg.useCustomGpt
      · cases hcl : cfg.hasOpenAIClient
        · simp
        · rw [hcu, hcl] at hcfg
          cases hcfg
      · rw [hcu] at hcfg
        simp at hcfg
    simp [analyze_frame_batch, h1]

/-- Witness for `empty_input_no_calls` on a configured and an unconfigured
backend. -/
theorem empty_input_no_calls_witness :
    batch_analyze_frames ⟨true, false⟩ (fun _ => .parsed .null) [] 10 = ([], []) ∧
    analyze_frame_batch ⟨true, false⟩ (fun _ => .parsed .null) [] = (.ok [], []) ∧
    analyze_frame_batch ⟨false, false⟩ (fun _ => .parsed .null) [] = (.error noKeyMsg, []) :=
  ⟨(empty_input_no_calls ⟨true, false⟩ (fun _ => .parsed .null) 10).1,
   (empty_input_no_calls ⟨true, false⟩ (fun _ => .parsed .null) 10).2.1 rfl,
   (empty_input_no_calls ⟨false, false⟩ (fun _ => .parsed .null) 10).2.2 rfl⟩

/-- C10 counterexample: with neither backend configured,
`analyze_frame_batch` on the empty list raises the configuration error
instead of returning the empty list — the client check of line 722 sits
before the empty-input check of line 724. -/
theorem empty_input_unconfigured_raises_cex :
    (analyze_frame_batch ⟨false, false⟩ (fun _ => .parsed .null) []).1 = .error noKeyMsg ∧
    (Except.error noKeyMsg : Except (List Char) (List Frame)) ≠ .ok [] :=
  ⟨rfl, by simp⟩

/-! ### Prompt-template substitution -/

theorem prefixOf_true_iff {l₁ l₂ : List Char} : l₁.isPrefixOf l₂ = true ↔ l₁ <+: l₂ :=
  List.isPrefixOf_iff_prefix

theorem strFindIdx_found (n : List Char) :
    ∀ (s : List Char) (i : Nat), strFindIdx n s = some i → n <+: s.drop i := by
  intro s
  induction s with
  | nil =>
    intro i h
    simp only [strFindIdx] at h
    by_cases hn : n.isEmpty
    · rw [if_pos hn] at h
      cases h
      rw [List.isEmpty_iff.mp hn]
      exact List.nil_prefix
    · rw [if_neg hn] at h
      cases h
  | cons c rest ih =>
    intro i h
    by_cases hp : n.isPrefixOf (c :: rest) = true
    · simp only [strFindIdx, hp, if_true] at h
      cases h
      exact prefixOf_true_iff.mp hp
    · simp only [strFindIdx, hp, Bool.false_eq_true, if_false, Option.map_eq_some'] at h
      rcases h with ⟨j, hj, rfl⟩
      exact ih j hj

/-- C8: substituting custom rules with `_build_full_prompt` keeps the fixed
prefix of the template — everything up to and including the start sentinel
— byte-identical, leaves everything after the substituted rules a function
of the template alone (the same `tail` for any two rules strings), and when
the `"\n---\n"` end separator is found that tail is literally a suffix of
the original template beginning with the separator.  When the start
sentinel is absent the template is returned unmodified. -/
theorem prompt_outside_region_preserved (template rules rules' : List Char) :
    (strFindIdx startMarker template = none →
      build_full_prompt template rules = template) ∧
    (∀ i, strFindIdx startMarker template = some i →
      ∃ tail : List Char,
        build_full_prompt template rules
          = template.take (i + startMarker.length) ++ "\n\n".toList ++ rules ++ tail ∧
        build_full_prompt template rules'
          = template.take (i + startMarker.length) ++ "\n\n".toList ++ rules' ++ tail ∧
        (∀ e, strFindIdx endSepLit
            (lstripNlCr (template.drop (i + startMarker.length))) = some e →
          tail <:+ template ∧ endSepLit <+: tail)) := by
  constructor
  · intro hnone
    simp [build_full_prompt, hnone]
  · intro i hfind
    have hsuf : lstripNlCr (template.drop (i + startMarker.length)) <:+ template :=
      (List.dropWhile_suffix _).trans (List.drop_suffix _ _)
    cases hend : strFindIdx endSepLit
        (lstripNlCr (template.drop (i + startMarker.length))) with
    | some e =>
      refine ⟨(lstripNlCr (template.drop (i + startMarker.length))).drop e, ?_, ?_, ?_⟩
      · simp [build_full_prompt, hfind, hend]
      · simp [build_full_prompt, hfind, hend]
      · intro e' he'
        cases he'
        exact ⟨(List.drop_suffix _ _).trans hsuf,
          strFindIdx_found endSepLit _ e hend⟩
    | none =>
      cases hsec : strFindIdx sectionLit
          (lstripNlCr (template.drop (i + startMarker.length))) with
      | some e =>
        refine ⟨(lstripNlCr (template.drop (i + startMarker.length))).drop e, ?_, ?_, ?_⟩
        · simp [build_full_prompt, hfind, hend, hsec]
        · simp [build_full_prompt, hfind, hend, hsec]
        · intro e' he'
          cases he'
      | none =>
        refine ⟨"\n".toList ++ lstripNlCr (template.drop (i + startMarker.length)),
          ?_, ?_, ?_⟩
        · simp [build_full_prompt, hfind, hend, hsec]
        · simp [build_full_prompt, hfind, hend, hsec]
        · intro e' he'
          cases he'

/-- Witness for `prompt_outside_region_preserved`: a template whose rules
region contains `OLD`, replaced by `NEW`, with the `"\n---\n"` separator
present. -/
theorem prompt_outside_region_preserved_witness :
    strFindIdx startMarker (startMarker ++ "\nOLD\n---\nTAIL".toList) = some 0 ∧
    (∃ tail : List Char,
      build_full_prompt (startMarker ++ "\nOLD\n---\nTAIL".toList) ("NEW".toList)
        = (startMarker ++ "\nOLD\n---\nTAIL".toList).take (0 + startMarker.length)
          ++ "\n\n".toList ++ "NEW".toList ++ tail ∧
      build_full_prompt (startMarker ++ "\nOLD\n---\nTAIL".toList) ("NEW2".toList)
        = (startMarker ++ "\nOLD\n---\nTAIL".toList).take (0 + startMarker.length)
          ++ "\n\n".toList ++ "NEW2".toList ++ tail ∧
      (∀ e, strFindIdx endSepLit
          (lstripNlCr ((startMarker ++ "\nOLD\n---\nTAIL".toList).drop
            (0 + startMarker.length))) = some e →
        tail <:+ (startMarker ++ "\nOLD\n---\nTAIL".toList) ∧ endSepLit <+: tail)) :=
  ⟨rfl, (prompt_outside_region_preserved (startMarker ++ "\nOLD\n---\nTAIL".toList)
    ("NEW".toList) ("NEW2".toList)).2 0 rfl⟩

/-! ### Markdown-fence stripping on fenced well-formed JSON -/

theorem isPrefixOf_cons_ne {a b : Char} (h : (a == b) = false) (as bs : List Char) :
    (a :: as).isPrefixOf (b :: bs) = false := by
  rw [List.isPrefixOf_cons₂, h, Bool.false_and]

theorem dropWhile_eq_self_of_head (p : Char → Bool) (s : List Char) (c : Char)
    (hh : s.head? = some c) (hc : p c = false) : s.dropWhile p = s := by
  cases s with
  | nil => cases hh
  | cons a rest =>
    have : a = c := by
      simpa using hh
    subst this
    rw [List.dropWhile_cons, hc]
    simp

theorem pyStrip_eq_self (s : List Char) (c d : Char) (hh : s.head? = some c)
    (hl : s.getLast? = some d) (hc : isWs c = false) (hd : isWs d = false) :
    pyStrip s = s := by
  unfold pyStrip
  rw [dropWhile_eq_self_of_head isWs s c hh hc]
  rw [dropWhile_eq_self_of_head isWs s.reverse d (by rw [List.head?_reverse]; exact hl) hd]
  exact List.reverse_reverse s

theorem pyStrip_append_ws (s w : List Char) (c d : Char) (hh : s.head? = some c)
    (hl : s.getLast? = some d) (hc : isWs c = false) (hd : isWs d = false)
    (hw : ∀ x ∈ w, isWs x = true) :
    pyStrip (s ++ w) = s := by
  unfold pyStrip
  have hhead : (s ++ w).head? = some c := by
    rw [List.head?_append, hh]
    rfl
  rw [dropWhile_eq_self_of_head isWs (s ++ w) c hhead hc]
  rw [List.reverse_append]
  have hwnil : w.reverse.dropWhile isWs = [] := by
    rw [List.dropWhile_eq_nil_iff]
    intro x hx
    exact hw x (List.mem_reverse.mp hx)
  rw [List.dropWhile_append, hwnil]
  simp only [List.isEmpty_nil, if_true]
  rw [dropWhile_eq_self_of_head isWs s.reverse d (by rw [List.head?_reverse]; exact hl) hd]
  exact List.reverse_reverse s

theorem subFenceAux_fuel (lit : List Char) (hne : lit ≠ []) :
    ∀ f₁ f₂ s, s.length ≤ f₁ → s.length ≤ f₂ →
      subFenceAux lit f₁ s = subFenceAux lit f₂ s := by
  intro f₁
  induction f₁ with
  | zero =>
    intro f₂ s h1 _
    have : s = [] := List.eq_nil_of_length_eq_zero (Nat.le_zero.mp h1)
    subst this
    cases f₂ <;> rfl
  | succ f₁ ih =>
    intro f₂ s h1 h2
    cases s with
    | nil => cases f₂ <;> rfl
    | cons c rest =>
      cases f₂ with
      | zero => simp at h2
      | succ f₂ =>
        have hlit : 1 ≤ lit.length := List.length_pos.mpr hne
        simp only [subFenceAux]
        by_cases hp : lit.isPrefixOf (c :: rest) = true
        · rw [if_pos hp, if_pos hp]
          apply ih
          · calc (((c :: rest).drop lit.length).dropWhile isWs).length
                ≤ ((c :: rest).drop lit.length).length :=
                  (List.dropWhile_sublist isWs).length_le
              _ = rest.length + 1 - lit.length := by
                  rw [List.length_drop, List.length_cons]
              _ ≤ f₁ := by
                  simp only [List.length_cons] at h1
                  omega
          · calc (((c :: rest).drop lit.length).dropWhile isWs).length
                ≤ ((c :: rest).drop lit.length).length :=
                  (List.dropWhile_sublist isWs).length_le
              _ = rest.length + 1 - lit.length := by
                  rw [List.length_drop, List.length_cons]
              _ ≤ f₂ := by
                  simp only [List.length_cons] at h2
                  omega
        · rw [if_neg hp, if_neg hp]
          simp only [List.length_cons] at h1 h2
          rw [ih f₂ rest (by omega) (by omega)]

theorem subFence_pass (lr : List Char) :
    ∀ (xs t : List Char), btick ∉ xs →
      subFence (btick :: lr) (xs ++ t) = xs ++ subFence (btick :: lr) t := by
  have aux : ∀ (xs : List Char) (fuel : Nat) (t : List Char), (xs ++ t).length ≤ fuel →
      btick ∉ xs →
      subFenceAux (btick :: lr) fuel (xs ++ t)
        = xs ++ subFenceAux (btick :: lr) t.length t := by
    intro xs
    induction xs with
    | nil =>
      intro fuel t hf _
      simp only [List.nil_append] at hf ⊢
      exact subFenceAux_fuel (btick :: lr) (by simp) fuel t.length t hf (Nat.le_refl _)
    | cons x xs ih =>
      intro fuel t hf hbt
      have hx : (btick == x) = false := by
        have : x ≠ btick := fun hxe => hbt (by rw [← hxe]; exact List.mem_cons_self x xs)
        exact beq_eq_false_iff_ne.mpr (Ne.symm this)
      cases fuel with
      | zero => simp at hf
      | succ fuel =>
        simp only [List.cons_append, subFenceAux]
        rw [if_neg (by rw [isPrefixOf_cons_ne hx]; exact Bool.false_ne_true)]
        simp only [List.length_cons, List.length_append] at hf
        have hrec := ih fuel t (by simp only [List.length_append]; omega)
          (fun hm => hbt (List.mem_cons_of_mem x hm))
        simp only [List.append_eq]
        rw [hrec]
  intro xs t hbt
  exact aux xs ((xs ++ t).length) t (Nat.le_refl _) hbt

theorem subFence_consume (lr rest : List Char) :
    subFence (btick :: lr) ((btick :: lr) ++ rest)
      = subFence (btick :: lr) (rest.dropWhile isWs) := by
  unfold subFence
  have hlen : ((btick :: lr) ++ rest).length = (lr ++ rest).length + 1 := by
    simp
  rw [hlen]
  show subFenceAux (btick :: lr) ((lr ++ rest).length + 1) (btick :: (lr ++ rest))
    = subFenceAux (btick :: lr) ((rest.dropWhile isWs).length) (rest.dropWhile isWs)
  simp only [subFenceAux]
  rw [if_pos (prefixOf_true_iff.mpr (by exact ⟨rest, by simp⟩))]
  have harg : ((btick :: (lr ++ rest)).drop (btick :: lr).length).dropWhile isWs
      = rest.dropWhile isWs := by
    simp only [List.length_cons, List.drop_succ_cons]
    rw [show lr.length = lr.length from rfl, List.drop_left]
  rw [harg]
  apply subFenceAux_fuel (btick :: lr) (by simp)
  · calc (rest.dropWhile isWs).length ≤ rest.length :=
        (List.dropWhile_sublist isWs).length_le
      _ ≤ (lr ++ rest).length := by simp
  · exact Nat.le_refl _

/-- The fenced wrapping of the C7 claim: a ```json code fence with no other
defects around the payload. -/
def fenceWrap (J : List Char) : List Char :=
  "```json\n".toList ++ J ++ "\n```".toList

theorem strip_markdown_fenced (J : List Char) (hbt : btick ∉ J)
    (hh : J.head? = some lbrace) (hl : J.getLast? = some rbrace) :
    strip_markdown_code_blocks (fenceWrap J) = J := by
  obtain ⟨Jt, rfl⟩ : ∃ Jt, J = lbrace :: Jt := by
    cases J with
    | nil => cases hh
    | cons a t =>
      have : a = lbrace := by simpa using hh
      subst this
      exact ⟨t, rfl⟩
  obtain ⟨Rt, hrev⟩ : ∃ Rt, (lbrace :: Jt).reverse = rbrace :: Rt := by
    cases hr : (lbrace :: Jt).reverse with
    | nil => simp at hr
    | cons r t =>
      have : r = rbrace := by
        have := List.head?_reverse (lbrace :: Jt)
        rw [hr, hl] at this
        simpa using this
      subst this
      exact ⟨t, rfl⟩
  have hfl1 : jsonFenceLit = btick :: ("``json".toList) := rfl
  have hfl2 : fenceLit = btick :: ("``".toList) := rfl
  have hwrap : fenceWrap (lbrace :: Jt)
      = jsonFenceLit ++ ('\n' :: ((lbrace :: Jt) ++ "\n```".toList)) := rfl
  have hdw : ('\n' :: ((lbrace :: Jt) ++ "\n```".toList)).dropWhile isWs
      = (lbrace :: Jt) ++ "\n```".toList := by
    rw [List.dropWhile_cons]
    simp only [show isWs '\n' = true from rfl, if_true]
    exact dropWhile_eq_self_of_head isWs _ lbrace rfl (by decide)
  have ht1 : subFence jsonFenceLit (fenceWrap (lbrace :: Jt))
      = (lbrace :: Jt) ++ "\n```".toList := by
    rw [hwrap, hfl1, subFence_consume, hdw, subFence_pass _ _ _ hbt]
    rfl
  have ht2 : subFence fenceLit ((lbrace :: Jt) ++ "\n```".toList)
      = (lbrace :: Jt) ++ "\n".toList := by
    rw [hfl2, subFence_pass _ _ _ hbt]
    rfl
  have ht3 : pyStrip ((lbrace :: Jt) ++ "\n".toList) = lbrace :: Jt := by
    apply pyStrip_append_ws (lbrace :: Jt) ("\n".toList) lbrace rbrace rfl hl
      (by decide) (by decide)
    intro x hx
    rcases List.mem_singleton.mp hx with rfl
    rfl
  have hp4 : fenceLit.isPrefixOf (lbrace :: Jt) = false := by
    rw [hfl2]
    exact isPrefixOf_cons_ne (by decide) _ _
  have hp5 : fenceLit.reverse.isPrefixOf (lbrace :: Jt).reverse = false := by
    rw [hrev, show fenceLit.reverse = btick :: btick :: btick :: [] from rfl]
    exact isPrefixOf_cons_ne (by decide) _ _
  have hps : pyStrip (lbrace :: Jt) = lbrace :: Jt :=
    pyStrip_eq_self _ lbrace rbrace rfl hl (by decide) (by decide)
  have hn4 : ¬(fenceLit.isPrefixOf (lbrace :: Jt) = true) := by
    rw [hp4]
    exact Bool.false_ne_true
  have hn5 : ¬(fenceLit.reverse.isPrefixOf (lbrace :: Jt).reverse = true) := by
    rw [hp5]
    exact Bool.false_ne_true
  simp only [strip_markdown_code_blocks]
  rw [ht1, ht2, ht3, if_neg hn4, if_neg hn5]
  exact hps

theorem repair_json_id (J : List Char) (hh : J.head? = some lbrace)
    (hl : J.getLast? = some rbrace) : repair_json J = J := by
  have hs := pyStrip_eq_self J lbrace rbrace hh hl (by decide) (by decide)
  obtain ⟨Jt, rfl⟩ : ∃ Jt, J = lbrace :: Jt := by
    cases J with
    | nil => cases hh
    | cons a t =>
      have : a = lbrace := by simpa using hh
      subst this
      exact ⟨t, rfl⟩
  have h2 : lstripWs4 (lbrace :: Jt) = lbrace :: Jt :=
    dropWhile_eq_self_of_head _ _ lbrace rfl (by decide)
  have h3 : rstripWs4 (lbrace :: Jt) = lbrace :: Jt := by
    unfold rstripWs4
    rw [dropWhile_eq_self_of_head _ _ rbrace (by rw [List.head?_reverse]; exact hl)
      (by decide)]
    exact List.reverse_reverse _
  simp only [repair_json]
  rw [hs]
  simp only [List.isEmpty_cons, Bool.false_eq_true, if_false]
  rw [h2]
  rw [if_pos (show (lbrace :: Jt).head? = some lbrace from rfl)]
  rw [if_pos hl]
  rw [h3]
  rw [if_pos (show (lbrace :: Jt).head? = some lbrace from rfl)]
  rw [if_pos hl]
  exact hs

theorem jsonParse_btick (rest : List Char) : jsonParse (btick :: rest) = none := by
  have hdw : (btick :: rest).dropWhile isJsonWs = btick :: rest :=
    dropWhile_eq_self_of_head _ _ btick rfl (by decide)
  have h1 : ¬(btick = '"') := by decide
  have h2 : ¬(btick = '[') := by decide
  have h3 : ¬(btick = lbrace) := by decide
  have h4 : ¬(("true".toList).isPrefixOf (btick :: rest) = true) := by
    rw [show "true".toList = 't' :: "rue".toList from rfl, isPrefixOf_cons_ne (by decide)]
    exact Bool.false_ne_true
  have h5 : ¬(("false".toList).isPrefixOf (btick :: rest) = true) := by
    rw [show "false".toList = 'f' :: "alse".toList from rfl, isPrefixOf_cons_ne (by decide)]
    exact Bool.false_ne_true
  have h6 : ¬(("null".toList).isPrefixOf (btick :: rest) = true) := by
    rw [show "null".toList = 'n' :: "ull".toList from rfl, isPrefixOf_cons_ne (by decide)]
    exact Bool.false_ne_true
  have h7 : parseInt (btick :: rest) = none := by
    simp only [parseInt]
    rw [if_neg (by decide : ¬(btick = '-'))]
    rw [if_neg (by decide : ¬(btick.isDigit = true))]
  have hpv : parseValue ((btick :: rest).length + 1) (btick :: rest) = none := by
    rw [show (btick :: rest).length + 1 = rest.length + 1 + 1 from by simp]
    simp only [parseValue, hdw]
    rw [if_neg h1, if_neg h2, if_neg h3, if_neg h4, if_neg h5, if_neg h6, h7]
    rfl
  unfold jsonParse
  rw [hpv]

theorem charFindIdx_head (c : Char) (rest : List Char) :
    charFindIdx c (c :: rest) = some 0 := by
  unfold charFindIdx strFindIdx
  rw [if_pos]
  rw [List.isPrefixOf_cons₂]
  simp

theorem charRFindIdx_last (J : List Char) (Rt : List Char) (d : Char)
    (hrev : J.reverse = d :: Rt) :
    charRFindIdx d J = some (J.length - 1) := by
  unfold charRFindIdx
  rw [hrev, charFindIdx_head]
  simp

theorem braced_length_ge_two (J : List Char) (hh : J.head? = some lbrace)
    (hl : J.getLast? = some rbrace) : 2 ≤ J.length := by
  cases J with
  | nil => cases hh
  | cons a t =>
    cases t with
    | nil =>
      have ha : a = lbrace := by simpa using hh
      have hb : a = rbrace := by simpa using hl
      rw [ha] at hb
      exact absurd hb (by decide)
    | cons b t2 =>
      simp only [List.length_cons]
      omega

/-- The raw model text of the claim's concrete scenario. -/
def catRaw : List Char :=
  "Sure! ```json\n\x7b\"description\":\"a cat\",\"meta_tags\":[\"cat\",\"pet\",\"animal\"]\x7d\n```".toList

theorem repairSlice_id (J : List Char) (hh : J.head? = some lbrace)
    (hl : J.getLast? = some rbrace) : repairSlice J = J := by
  obtain ⟨Jt, hJ⟩ : ∃ Jt, J = lbrace :: Jt := by
    cases J with
    | nil => cases hh
    | cons a t =>
      have : a = lbrace := by simpa using hh
      subst this
      exact ⟨t, rfl⟩
  obtain ⟨Rt, hrev⟩ : ∃ Rt, J.reverse = rbrace :: Rt := by
    cases hr : J.reverse with
    | nil =>
      rw [hJ] at hr
      simp at hr
    | cons r t =>
      have : r = rbrace := by
        have := List.head?_reverse J
        rw [hr, hl] at this
        simpa using this
      subst this
      exact ⟨t, rfl⟩
  have hfind : charFindIdx lbrace J = some 0 := by
    rw [hJ]
    exact charFindIdx_head _ _
  have hrfind : charRFindIdx rbrace J = some (J.length - 1) :=
    charRFindIdx_last J Rt rbrace hrev
  have hlen2 : 2 ≤ J.length := braced_length_ge_two J hh hl
  unfold repairSlice
  rw [hfind, hrfind]
  show (if 0 < J.length - 1 then (J.drop 0).take (J.length - 1 + 1 - 0) else J) = J
  rw [if_pos (by omega : 0 < J.length - 1)]
  rw [List.drop_zero, show J.length - 1 + 1 - 0 = J.length from by omega]
  exact List.take_length J

/-- C7: wrapping a well-formed brace-delimited JSON object in a ```json
markdown fence changes nothing about the interpreted fields: the repair
path of `analyze_frame` (strip fences, slice from first opening to last
closing brace, repair, decode) produces the same `(description, meta_tags)`
as decoding the unwrapped JSON directly — and on the concrete raw text of
the claim it yields description `"a cat"` and tags
`["cat", "pet", "animal"]`. -/
theorem fenced_json_repair_equiv :
    (∀ (J : List Char) (kvs : List (List Char × Json)),
      btick ∉ J → J.head? = some lbrace → J.getLast? = some rbrace →
      jsonParse J = some (.obj kvs) →
      analyzeFrameParse (fenceWrap J) = analyzeFrameParse J ∧
      analyzeFrameParse J = .ok (extractMainFields kvs)) ∧
    analyzeFrameParse catRaw
      = .ok (.str ("a cat".toList),
          .arr [.str ("cat".toList), .str ("pet".toList), .str ("animal".toList)]) := by
  constructor
  · intro J kvs hbt hh hl hparse
    have hJne : ∃ Jt, J = lbrace :: Jt := by
      cases J with
      | nil => cases hh
      | cons a t =>
        have : a = lbrace := by simpa using hh
        subst this
        exact ⟨t, rfl⟩
    have hps : pyStrip J = J :=
      pyStrip_eq_self J lbrace rbrace hh hl (by decide) (by decide)
    have hne : ¬(J.isEmpty = true) := by
      obtain ⟨Jt, rfl⟩ := hJne
      simp
    have hdirect : analyzeFrameParse J = .ok (extractMainFields kvs) := by
      unfold analyzeFrameParse
      rw [hps, if_neg hne, hparse]
    refine ⟨?_, hdirect⟩
    rw [hdirect]
    have hcons : fenceWrap J = btick :: ("``json\n".toList ++ J ++ "\n```".toList) := rfl
    have hglast : (fenceWrap J).getLast? = some btick := by
      unfold fenceWrap
      rw [List.getLast?_append]
      rfl
    have hpw : pyStrip (fenceWrap J) = fenceWrap J :=
      pyStrip_eq_self (fenceWrap J) btick btick (by rw [hcons]; rfl) hglast
        (by decide) (by decide)
    have hwne : ¬((fenceWrap J).isEmpty = true) := by
      rw [hcons]
      simp
    have hjp : jsonParse (fenceWrap J) = none := by
      rw [hcons]
      exact jsonParse_btick _
    have hmid : repair_json (repairSlice
        (pyStrip (strip_markdown_code_blocks (fenceWrap J)))) = J := by
      rw [strip_markdown_fenced J hbt hh hl, hps, repairSlice_id J hh hl,
        repair_json_id J hh hl]
    unfold analyzeFrameParse
    rw [hpw, if_neg hwne, hjp, hmid, hparse]
  · rfl

/-- Witness for `fenced_json_repair_equiv` at the concrete cat JSON
object. -/
theorem fenced_json_repair_equiv_witness :
    analyzeFrameParse (fenceWrap
        ("\x7b\"description\":\"a cat\",\"meta_tags\":[\"cat\",\"pet\",\"animal\"]\x7d".toList))
      = analyzeFrameParse
        ("\x7b\"description\":\"a cat\",\"meta_tags\":[\"cat\",\"pet\",\"animal\"]\x7d".toList) ∧
    analyzeFrameParse
        ("\x7b\"description\":\"a cat\",\"meta_tags\":[\"cat\",\"pet\",\"animal\"]\x7d".toList)
      = .ok (extractMainFields
          [("description".toList, .str ("a cat".toList)),
           ("meta_tags".toList,
            .arr [.str ("cat".toList), .str ("pet".toList), .str ("animal".toList)])]) :=
  fenced_json_repair_equiv.1
    ("\x7b\"description\":\"a cat\",\"meta_tags\":[\"cat\",\"pet\",\"animal\"]\x7d".toList)
    [("description".toList, .str ("a cat".toList)),
     ("meta_tags".toList,
      .arr [.str ("cat".toList), .str ("pet".toList), .str ("animal".toList)])]
    (by decide) rfl rfl rfl
